import Mathlib

/-!
# Verification of the Gumband MQTT ingestion core

A shallow embedding, in Lean 4, of the MQTT-facing ingestion core of the
`gumband-public-shared-lib` repository: the V2 packet parser and binary
value codec (`V2PacketParser`), the default in-memory hardware registration
cache (`HardwareRegistrationCache`), the V2 dispatcher (`MqttApiV2`), the
pending-message drain of the event-handler shell (`MQTTEventHandler`), and
the property-set publication path (`setPropertyValue`).

Conventions of the embedding:
* JavaScript objects whose keys may be absent are `Option`-valued fields;
  reading a field of `undefined` (a `TypeError` at run time) is an explicit
  `JsError.typeError` result.
* Async methods run synchronously until completion (none of the embedded
  bodies contain an interleaving point that matters single-threaded); a
  rejected promise is an error result carrying the mutated state, since a
  JavaScript throw does not roll back prior mutations.
* The advisory per-source locks always succeed in the sequential model;
  `lockRegistrationCacheAndPerformAction` runs its action and re-raises
  the action's error, as the source does.
* Machine integers are `Int`/`Nat` with explicit two's-complement ranges.
-/

namespace Gumband

/-- The two V2 sources (`V2Sources` in `types/mqtt-api/mqtt-api-v2.ts`). -/
inductive V2Source
  | system
  | app
deriving DecidableEq, Repr

/-- String form used when a source is spliced into a topic. -/
def V2Source.toStr : V2Source → String
  | .system => "system"
  | .app => "app"

/-- The closed set of V2 property types (`V2PropertyTypes`). -/
inductive V2PropertyType
  | gmbnd_primitive
  | gmbnd_color
  | gmbnd_led
deriving DecidableEq, Repr

/-- A scalar inside an unpacked property value (`DataType` of the
`python-struct` package: number, 64-bit `Long`, boolean, or string).
JavaScript numbers and `Long`s are both embedded as `Int`; every claim
treats them uniformly. -/
inductive DataType
  | num (n : Int)
  | bool (b : Bool)
  | str (s : String)
deriving DecidableEq, Repr

/-- A JavaScript run-time error. The embedding distinguishes `TypeError`
(reading a property of `undefined`, or the explicit `TypeError` thrown by
`packPropertyValue`) from ordinary `Error`s. -/
inductive JsError
  | typeError
  | jsError (msg : String)
deriving DecidableEq, Repr

/-- A validated property registration (`V2PropertyRegistration` in
`types/mqtt-api/mqtt-api-v2.ts`). `min`/`max`/`step` are numbers in the
source; they are embedded as integers, which is the range every claim
exercises. -/
structure V2PropertyRegistration where
  path : String
  index : Nat
  desc : Option String := none
  type : V2PropertyType
  format : String
  length : Nat
  settable : Bool
  gettable : Bool
  min : Option Int := none
  step : Option Int := none
  max : Option Int := none
  ui_hidden : Option Bool := none
deriving DecidableEq, Repr

/-- A validated system info (`V2SystemInfo`); only the fields the embedded
handlers read (`api_ver`, `num_props`) are retained. -/
structure V2SystemInfo where
  api_ver : Nat
  num_props : Nat
deriving DecidableEq, Repr

/-- A validated application info (`V2ApplicationInfo`); only `num_props`
is read by the embedded handlers. -/
structure V2ApplicationInfo where
  num_props : Nat
deriving DecidableEq, Repr

/-- Content of the `info` slot of a source sub-record in the cache: the
system slot receives a `V2SystemInfo`, the app slot a `V2ApplicationInfo`. -/
inductive SrcInfo
  | sys (i : V2SystemInfo)
  | app (i : V2ApplicationInfo)
deriving DecidableEq, Repr

/-- The `num_props` field both info shapes share (`sourceInfo?.num_props`). -/
def SrcInfo.num_props : SrcInfo → Nat
  | .sys i => i.num_props
  | .app i => i.num_props

/-! ## The struct codec

Modelled from the spec: the `python-struct` npm package used by
`V2PacketParser` is an external dependency, absent from the repository;
its pack/unpack/sizeOf operations are modelled here after the struct-pack
grammar and wire format of spec sections 3 and 6 (optional byte-order
marker from `@=!<>`, then groups of an optional repeat count and a type
code; fixed-width integers, network order unless the marker says
otherwise; `s` is a fixed-length byte string). Integer, boolean, string
and pad codes are modelled; float and pointer codes are left as errors,
and every theorem below restricts itself to the modelled codes. -/

/-- A struct-pack type code (`xcbBhHiIlLfdspPqQ?`). -/
inductive StructCode
  | x | c | b | B | h | H | i | I | l | L | f | d | s | p | P | q | Q | bl
deriving DecidableEq, Repr

/-- Byte width of one element of a code (standard sizes). -/
def StructCode.size : StructCode → Nat
  | .x => 1 | .c => 1 | .b => 1 | .B => 1 | .h => 2 | .H => 2
  | .i => 4 | .I => 4 | .l => 4 | .L => 4 | .f => 4 | .d => 8
  | .s => 1 | .p => 1 | .P => 8 | .q => 8 | .Q => 8 | .bl => 1

/-- Signed integer codes. -/
def StructCode.isSigned : StructCode → Bool
  | .b => true | .h => true | .i => true | .l => true | .q => true
  | _ => false

/-- The fixed-width integer codes (the "numeric" codes of the claims). -/
def StructCode.isIntCode : StructCode → Bool
  | .b => true | .B => true | .h => true | .H => true
  | .i => true | .I => true | .l => true | .L => true
  | .q => true | .Q => true
  | _ => false

/-- Map a format character to its code. -/
def structCodeOfChar : Char → Option StructCode
  | 'x' => some .x | 'c' => some .c | 'b' => some .b | 'B' => some .B
  | 'h' => some .h | 'H' => some .H | 'i' => some .i | 'I' => some .I
  | 'l' => some .l | 'L' => some .L | 'f' => some .f | 'd' => some .d
  | 's' => some .s | 'p' => some .p | 'P' => some .P | 'q' => some .q
  | 'Q' => some .Q | '?' => some .bl
  | _ => none

/-- A parsed struct format: byte order plus a list of (repeat count, code)
groups. -/
structure StructFormat where
  littleEndian : Bool
  items : List (Nat × StructCode)
deriving DecidableEq, Repr

/-- Parse the groups of a format string: each group is an optional decimal
repeat count followed by a code character (the library accepts multi-digit
counts; the validation regex of the repository separately restricts
registered formats to single digits 1-9). The accumulator carries the
digits read so far of the current group. -/
def parseStructItems : List Char → Nat → Bool → Option (List (Nat × StructCode))
  | [], _, false => some []
  | [], _, true => none
  | ch :: rest, acc, hasDigits =>
    if ch.isDigit then
      parseStructItems rest (10 * acc + (ch.toNat - 48)) true
    else
      match structCodeOfChar ch with
      | none => none
      | some code =>
        let count := if hasDigits then acc else 1
        (parseStructItems rest 0 false).map (fun tail => (count, code) :: tail)

/-- Parse a full format string: optional byte-order marker, then at least
one group. Network order is the default; `<` selects little-endian, and
the native markers `@`/`=` are modelled as little-endian (commodity
hardware). -/
def parseStructFormat (format : String) : Option StructFormat :=
  let cs := format.data
  let (le, rest) :=
    match cs with
    | [] => (false, ([] : List Char))
    | m :: rest0 =>
      if m = '<' || m = '@' || m = '=' then (true, rest0)
      else if m = '>' || m = '!' then (false, rest0)
      else (false, cs)
  match rest with
  | [] => none
  | _ =>
    match parseStructItems rest 0 false with
    | none => none
    | some items => some { littleEndian := le, items := items }

/-- `struct.sizeOf`: total byte size of one tuple of the format (for `s`
the count is the byte length; uniform because `s` has element size 1). -/
def structSizeOfItems (items : List (Nat × StructCode)) : Nat :=
  items.foldr (fun it n => it.1 * it.2.size + n) 0

/-- Little-endian bytes of a natural number, fixed width. -/
def natToBytesLE : (w : Nat) → Nat → List Nat
  | 0, _ => []
  | w + 1, n => n % 256 :: natToBytesLE w (n / 256)

/-- Natural number from little-endian bytes. -/
def natFromBytesLE : List Nat → Nat
  | [] => 0
  | b :: bs => b + 256 * natFromBytesLE bs

theorem natToBytesLE_length (w n : Nat) : (natToBytesLE w n).length = w := by
  induction w generalizing n with
  | zero => rfl
  | succ w ih => simp [natToBytesLE, ih]

theorem natFromBytesLE_natToBytesLE (w n : Nat) (h : n < 256 ^ w) :
    natFromBytesLE (natToBytesLE w n) = n := by
  induction w generalizing n with
  | zero => simp [natToBytesLE, natFromBytesLE]; omega
  | succ w ih =>
    have hdiv : n / 256 < 256 ^ w := by
      rw [Nat.div_lt_iff_lt_mul (by norm_num)]
      calc n < 256 ^ (w + 1) := h
        _ = 256 ^ w * 256 := by ring
    simp [natToBytesLE, natFromBytesLE, ih _ hdiv]
    omega

/-- Whether an integer is representable by an integer code. -/
def intCodeInRange (c : StructCode) (v : Int) : Bool :=
  let w := c.size
  if c.isSigned then
    decide (-(((2 ^ (8 * w - 1) : Nat) : Int)) ≤ v ∧ v < ((2 ^ (8 * w - 1) : Nat) : Int))
  else
    decide (0 ≤ v ∧ v < ((2 ^ (8 * w) : Nat) : Int))

/-- Encode one integer element (two's complement, fixed width, byte order
from the format). -/
def encodeIntCode (le : Bool) (c : StructCode) (v : Int) : List Nat :=
  let w := c.size
  let u : Nat := (if v < 0 then v + ((2 ^ (8 * w) : Nat) : Int) else v).toNat
  let bs := natToBytesLE w u
  if le then bs else bs.reverse

/-- Decode one integer element. -/
def decodeIntCode (le : Bool) (c : StructCode) (bs : List Nat) : Int :=
  let w := c.size
  let u := natFromBytesLE (if le then bs else bs.reverse)
  if c.isSigned && decide ((2 ^ (8 * w - 1) : Nat) ≤ u) then
    (u : Int) - ((2 ^ (8 * w) : Nat) : Int)
  else
    (u : Int)

theorem encodeIntCode_length (le : Bool) (c : StructCode) (v : Int) :
    (encodeIntCode le c v).length = c.size := by
  cases le <;> simp [encodeIntCode, natToBytesLE_length]

theorem decodeIntCode_encodeIntCode (le : Bool) (c : StructCode) (v : Int)
    (hc : c.isIntCode = true) (h : intCodeInRange c v = true) :
    decodeIntCode le c (encodeIntCode le c v) = v := by
  have hred : decodeIntCode le c (encodeIntCode le c v)
      = decodeIntCode true c (encodeIntCode true c v) := by
    cases le <;> simp [decodeIntCode, encodeIntCode]
  rw [hred]
  have hw : 1 ≤ c.size := by
    cases c <;> simp_all [StructCode.size, StructCode.isIntCode]
  have hQP : (2 ^ (8 * c.size) : Nat) = 2 * 2 ^ (8 * c.size - 1) := by
    rw [← pow_succ']
    congr 1
    omega
  have h256 : (256 : Nat) ^ c.size = 2 ^ (8 * c.size) := by
    rw [show (256 : Nat) = 2 ^ 8 by norm_num, ← pow_mul]
  unfold intCodeInRange at h
  simp only [encodeIntCode, decodeIntCode, if_true, reduceIte]
  by_cases hs : c.isSigned = true
  · simp only [hs, if_true, decide_eq_true_eq] at h
    obtain ⟨h1, h2⟩ := h
    by_cases hneg : v < 0
    · simp only [if_pos hneg]
      have hu : (v + ((2 ^ (8 * c.size) : Nat) : Int)).toNat < 256 ^ c.size := by omega
      rw [natFromBytesLE_natToBytesLE _ _ hu]
      simp only [hs, Bool.true_and, decide_eq_true_eq]
      split <;> omega
    · simp only [if_neg hneg]
      have hu : v.toNat < 256 ^ c.size := by omega
      rw [natFromBytesLE_natToBytesLE _ _ hu]
      simp only [hs, Bool.true_and, decide_eq_true_eq]
      split <;> omega
  · simp only [hs, if_false, Bool.false_eq_true, decide_eq_true_eq] at h
    obtain ⟨h1, h2⟩ := h
    have hneg : ¬ v < 0 := by omega
    simp only [if_neg hneg]
    have hu : v.toNat < 256 ^ c.size := by omega
    rw [natFromBytesLE_natToBytesLE _ _ hu]
    have hs' : c.isSigned = false := by simp_all
    simp only [hs', Bool.false_and, Bool.false_eq_true, if_neg, not_false_iff]
    omega

/-- Floor of the base-2 logarithm; the fuel only bounds the recursion and
`n` itself is always enough. -/
def natLog2Go : Nat → Nat → Nat
  | 0, _ => 0
  | fuel + 1, n => if n < 2 then 0 else natLog2Go fuel (n / 2) + 1

/-- `⌊log₂ n⌋` (0 at 0). -/
def natLog2 (n : Nat) : Nat := natLog2Go n n

/-- Modelled from the spec: the IEEE-754 binary interchange encoding
(round to nearest, ties to even) of an integer-valued JavaScript number,
with `mbits` mantissa bits and `ebits` exponent bits (23/8 for the `f`
code, 52/11 for `d`); `none` when the magnitude overflows to infinity. -/
def floatBitsOfInt (mbits ebits : Nat) (v : Int) : Option Nat :=
  if v = 0 then some 0
  else
    let sign : Nat := if v < 0 then 1 else 0
    let bias := 2 ^ (ebits - 1) - 1
    let a := v.natAbs
    let e := natLog2 a
    let m0 :=
      if e ≤ mbits then a * 2 ^ (mbits - e)
      else
        let sh := e - mbits
        let q := a / 2 ^ sh
        let r := a % 2 ^ sh
        let half := 2 ^ (sh - 1)
        if half < r ∨ (r = half ∧ q % 2 = 1) then q + 1 else q
    let e2 := if m0 = 2 ^ (mbits + 1) then e + 1 else e
    let m2 := if m0 = 2 ^ (mbits + 1) then 2 ^ mbits else m0
    if 2 ^ ebits - 1 ≤ e2 + bias then none
    else some (sign * 2 ^ (mbits + ebits) + (e2 + bias) * 2 ^ mbits + (m2 - 2 ^ mbits))

/-- Modelled from the spec: decode an IEEE-754 bit pattern back to a
JavaScript number. The embedding represents only integer-valued numbers,
so a fractional, infinite or NaN result is `none` (outside the modelled
fragment). -/
def floatIntOfBits (mbits ebits : Nat) (bits : Nat) : Option Int :=
  let sign := bits / 2 ^ (mbits + ebits)
  let be := (bits / 2 ^ mbits) % 2 ^ ebits
  let frac := bits % 2 ^ mbits
  let bias := 2 ^ (ebits - 1) - 1
  if be = 2 ^ ebits - 1 then none
  else if be = 0 then
    if frac = 0 then some 0 else none
  else
    let sig := 2 ^ mbits + frac
    let shift := mbits + bias
    if shift ≤ be then
      some (if sign = 1 then -(((sig * 2 ^ (be - shift) : Nat)) : Int)
            else ((sig * 2 ^ (be - shift) : Nat) : Int))
    else if sig % 2 ^ (shift - be) = 0 then
      some (if sign = 1 then -(((sig / 2 ^ (shift - be) : Nat)) : Int)
            else ((sig / 2 ^ (shift - be) : Nat) : Int))
    else none

/-- Mantissa and exponent widths of the float codes. -/
def floatParams : StructCode → Option (Nat × Nat)
  | .f => some (23, 8)
  | .d => some (52, 11)
  | _ => none

/-- Pack one group of `n` float elements (the `f`/`d` codes), consuming
`n` values: each number is rounded to the code's IEEE-754 width. -/
def packFloatGroup (le : Bool) (cd : StructCode) :
    Nat → List DataType → Except JsError (List Nat × List DataType)
  | 0, vs => .ok ([], vs)
  | _ + 1, [] => .error (.jsError "not enough values")
  | n + 1, v :: vs =>
    match v with
    | .num i =>
      match floatParams cd with
      | none => .error (.jsError "unmodelled struct code")
      | some (mbits, ebits) =>
        match floatBitsOfInt mbits ebits i with
        | none => .error (.jsError "float overflow")
        | some bits =>
          match packFloatGroup le cd n vs with
          | .error e => .error e
          | .ok (bs, rest) =>
            let b0 := natToBytesLE cd.size bits
            .ok ((if le then b0 else b0.reverse) ++ bs, rest)
    | _ => .error (.jsError "expected a number")

/-- Unpack one group of `n` float elements off the front of a byte list;
a fractional result is outside the modelled (integer-valued) fragment. -/
def unpackFloatGroup (le : Bool) (cd : StructCode) :
    Nat → List Nat → Except JsError (List DataType × List Nat)
  | 0, bs => .ok ([], bs)
  | n + 1, bs =>
    if cd.size ≤ bs.length then
      match floatParams cd with
      | none => .error (.jsError "unmodelled struct code")
      | some (mbits, ebits) =>
        match floatIntOfBits mbits ebits
            (natFromBytesLE (if le then bs.take cd.size else (bs.take cd.size).reverse)) with
        | none => .error (.jsError "fractional float value outside the modelled fragment")
        | some v =>
          match unpackFloatGroup le cd n (bs.drop cd.size) with
          | .error e => .error e
          | .ok (vals, rest) => .ok (.num v :: vals, rest)
    else .error (.jsError "buffer too short")

/-- Pack one group of `n` integer elements, consuming `n` values. -/
def packIntGroup (le : Bool) (cd : StructCode) :
    Nat → List DataType → Except JsError (List Nat × List DataType)
  | 0, vs => .ok ([], vs)
  | _ + 1, [] => .error (.jsError "not enough values")
  | n + 1, v :: vs =>
    match v with
    | .num i =>
      if intCodeInRange cd i then
        match packIntGroup le cd n vs with
        | .error e => .error e
        | .ok (bs, rest) => .ok (encodeIntCode le cd i ++ bs, rest)
      else .error (.jsError "integer out of range")
    | _ => .error (.jsError "expected a number")

/-- Pack one group of `n` booleans. -/
def packBoolGroup : Nat → List DataType → Except JsError (List Nat × List DataType)
  | 0, vs => .ok ([], vs)
  | _ + 1, [] => .error (.jsError "not enough values")
  | n + 1, v :: vs =>
    match v with
    | .bool b =>
      match packBoolGroup n vs with
      | .error e => .error e
      | .ok (bs, rest) => .ok ((if b then 1 else 0) :: bs, rest)
    | _ => .error (.jsError "expected a boolean")

/-- UTF-8 encoding of one character. -/
def utf8EncodeChar (ch : Char) : List Nat :=
  let n := ch.toNat
  if n < 128 then [n]
  else if n < 2048 then [192 + n / 64, 128 + n % 64]
  else if n < 65536 then [224 + n / 4096, 128 + (n / 64) % 64, 128 + n % 64]
  else [240 + n / 262144, 128 + (n / 4096) % 64, 128 + (n / 64) % 64, 128 + n % 64]

/-- UTF-8 bytes of a string. -/
def utf8Bytes (s : String) : List Nat :=
  s.data.foldr (fun ch acc => utf8EncodeChar ch ++ acc) []

/-- Truncate or zero-pad a byte list to exactly `n` bytes (the `s` code). -/
def padTruncate (n : Nat) (bs : List Nat) : List Nat :=
  bs.take n ++ List.replicate (n - bs.length) 0

/-- Bytes rendered as a string, one character per byte (the modelled
decoder of `s` payloads; byte-transparent on ASCII data, which is the only
data any claim decodes). -/
def stringFromBytes (bs : List Nat) : String :=
  String.mk (bs.map Char.ofNat)

/-- Pack one format group (count plus code): integer codes consume `count`
numbers, `f`/`d` round `count` numbers to IEEE-754 width, `s` consumes one
string rendered as `count` bytes, `x` emits `count` pad bytes, `?`
consumes `count` booleans; the `c`/`p`/`P` codes are unmodelled. -/
def packGroup (le : Bool) (count : Nat) (cd : StructCode) (vs : List DataType) :
    Except JsError (List Nat × List DataType) :=
  if cd.isIntCode then packIntGroup le cd count vs
  else
    match cd with
    | .s =>
      match vs with
      | [] => .error (.jsError "not enough values")
      | v :: rest =>
        match v with
        | .str s => .ok (padTruncate count (utf8Bytes s), rest)
        | _ => .error (.jsError "expected a string")
    | .x => .ok (List.replicate count 0, vs)
    | .bl => packBoolGroup count vs
    | .f => packFloatGroup le .f count vs
    | .d => packFloatGroup le .d count vs
    | _ => .error (.jsError "unmodelled struct code")

/-- `struct.pack` over a parsed item list: concatenated group encodings;
left-over values are an error, as in the Python semantics. -/
def packItems (le : Bool) : List (Nat × StructCode) → List DataType → Except JsError (List Nat)
  | [], [] => .ok []
  | [], _ :: _ => .error (.jsError "too many values")
  | (n, cd) :: items, vs =>
    match packGroup le n cd vs with
    | .error e => .error e
    | .ok (bs, rest) =>
      match packItems le items rest with
      | .error e => .error e
      | .ok tail => .ok (bs ++ tail)

/-- `struct.pack(format, record)`. -/
def structPack (format : String) (record : List DataType) : Except JsError (List Nat) :=
  match parseStructFormat format with
  | none => .error (.jsError "invalid struct format")
  | some f => packItems f.littleEndian f.items record

/-- Unpack one group of `n` integer elements off the front of a byte list. -/
def unpackIntGroup (le : Bool) (cd : StructCode) :
    Nat → List Nat → Except JsError (List DataType × List Nat)
  | 0, bs => .ok ([], bs)
  | n + 1, bs =>
    if cd.size ≤ bs.length then
      match unpackIntGroup le cd n (bs.drop cd.size) with
      | .error e => .error e
      | .ok (vals, rest) => .ok (.num (decodeIntCode le cd (bs.take cd.size)) :: vals, rest)
    else .error (.jsError "buffer too short")

/-- Unpack one group of `n` booleans. -/
def unpackBoolGroup : Nat → List Nat → Except JsError (List DataType × List Nat)
  | 0, bs => .ok ([], bs)
  | n + 1, bs =>
    match bs with
    | [] => .error (.jsError "buffer too short")
    | b :: rest0 =>
      match unpackBoolGroup n rest0 with
      | .error e => .error e
      | .ok (vals, rest) => .ok (.bool (b ≠ 0) :: vals, rest)

/-- Unpack one format group. -/
def unpackGroup (le : Bool) (count : Nat) (cd : StructCode) (bs : List Nat) :
    Except JsError (List DataType × List Nat) :=
  if cd.isIntCode then unpackIntGroup le cd count bs
  else
    match cd with
    | .s =>
      if count ≤ bs.length then .ok ([.str (stringFromBytes (bs.take count))], bs.drop count)
      else .error (.jsError "buffer too short")
    | .x =>
      if count ≤ bs.length then .ok ([], bs.drop count)
      else .error (.jsError "buffer too short")
    | .bl => unpackBoolGroup count bs
    | .f => unpackFloatGroup le .f count bs
    | .d => unpackFloatGroup le .d count bs
    | _ => .error (.jsError "unmodelled struct code")

/-- Unpack a parsed item list off the front of a byte list, returning the
decoded values and the remaining bytes. -/
def unpackItems (le : Bool) : List (Nat × StructCode) → List Nat →
    Except JsError (List DataType × List Nat)
  | [], bs => .ok ([], bs)
  | (n, cd) :: items, bs =>
    match unpackGroup le n cd bs with
    | .error e => .error e
    | .ok (vals, rest) =>
      match unpackItems le items rest with
      | .error e => .error e
      | .ok (vals2, rest2) => .ok (vals ++ vals2, rest2)

/-- `struct.unpackFrom(format, payload, false, offset)`. -/
def structUnpackFrom (format : String) (payload : List Nat) (offset : Nat) :
    Except JsError (List DataType) :=
  match parseStructFormat format with
  | none => .error (.jsError "invalid struct format")
  | some f =>
    match unpackItems f.littleEndian f.items (payload.drop offset) with
    | .error e => .error e
    | .ok (vals, _) => .ok vals

/-- `struct.sizeOf(format)`. -/
def structSizeOf (format : String) : Except JsError Nat :=
  match parseStructFormat format with
  | none => .error (.jsError "invalid struct format")
  | some f => .ok (structSizeOfItems f.items)

/-- Packing a group of integers yields `count * size` bytes, consumes
exactly `count` values, and unpacking those bytes, whatever follows them,
restores the consumed values. -/
theorem packIntGroup_spec (le : Bool) (cd : StructCode) (hc : cd.isIntCode = true) :
    ∀ (n : Nat) (vs : List DataType) (bs : List Nat) (rest : List DataType),
    packIntGroup le cd n vs = .ok (bs, rest) →
    bs.length = n * cd.size ∧ rest = vs.drop n ∧
      ∀ tail, unpackIntGroup le cd n (bs ++ tail) = .ok (vs.take n, tail) := by
  intro n
  induction n with
  | zero =>
    intro vs bs rest h
    simp [packIntGroup] at h
    simp [h.1, h.2, unpackIntGroup]
  | succ n ih =>
    intro vs bs rest h
    match vs with
    | [] => simp [packIntGroup] at h
    | v :: vs' =>
      match v with
      | .bool _ => simp [packIntGroup] at h
      | .str _ => simp [packIntGroup] at h
      | .num i =>
        simp only [packIntGroup] at h
        split at h
        · split at h
          · simp at h
          · next bs' rest' hrec =>
            simp only [Except.ok.injEq, Prod.mk.injEq] at h
            obtain ⟨hbs, hrest⟩ := h
            obtain ⟨hlen, hdrop, hunpack⟩ := ih vs' bs' rest' hrec
            subst hbs hrest
            refine ⟨by simp [encodeIntCode_length, hlen]; ring, by simp [hdrop], ?_⟩
            intro tail
            simp only [unpackIntGroup, List.append_assoc]
            rw [if_pos (by simp [encodeIntCode_length])]
            have htake : ((encodeIntCode le cd i ++ (bs' ++ tail)).take cd.size)
                = encodeIntCode le cd i := by
              rw [List.take_append_of_le_length (by simp [encodeIntCode_length])]
              simp [encodeIntCode_length]
            have hdrop2 : ((encodeIntCode le cd i ++ (bs' ++ tail)).drop cd.size)
                = bs' ++ tail := by
              rw [List.drop_append_of_le_length (by simp [encodeIntCode_length])]
              simp [encodeIntCode_length]
            rw [hdrop2, hunpack tail, htake,
              decodeIntCode_encodeIntCode le cd i hc ‹intCodeInRange cd i = true›]
            simp
        · simp at h

/-- Packing a record against integer-only items yields a buffer of the
format's size, and unpacking that buffer, whatever follows it, restores the
record. -/
theorem packItems_spec (le : Bool) :
    ∀ (items : List (Nat × StructCode)) (record : List DataType) (bytes : List Nat),
    (∀ it ∈ items, it.2.isIntCode = true) →
    packItems le items record = .ok bytes →
    bytes.length = structSizeOfItems items ∧
      ∀ tail, unpackItems le items (bytes ++ tail) = .ok (record, tail) := by
  intro items
  induction items with
  | nil =>
    intro record bytes _ h
    match record with
    | [] =>
      simp [packItems] at h
      subst h
      simp [structSizeOfItems, unpackItems]
    | _ :: _ => simp [packItems] at h
  | cons it items ih =>
    intro record bytes hint h
    obtain ⟨n, cd⟩ := it
    have hc : cd.isIntCode = true := hint (n, cd) (by simp)
    simp only [packItems, packGroup, hc, if_pos] at h
    split at h
    · simp at h
    · next bs1 rest hg =>
      split at h
      · simp at h
      · next bs2 hrec =>
        simp only [Except.ok.injEq] at h
        subst h
        obtain ⟨hlen1, hdrop, hun1⟩ := packIntGroup_spec le cd hc n record bs1 rest hg
        obtain ⟨hlen2, hun2⟩ := ih rest bs2 (fun x hx => hint x (by simp [hx])) hrec
        constructor
        · simp [structSizeOfItems, hlen1, hlen2]
        · intro tail
          simp only [unpackItems, unpackGroup, hc, if_pos, List.append_assoc]
          rw [hun1 (bs2 ++ tail)]
          simp [hun2 tail, hdrop]

/-! ## V2PacketParser (value codec)

Embedded from the source of `V2PacketParser` in
`mqttEventHandler/mqttApiV2/packetParser.ts` (the variant that carries the
value codec): `validatePropertyValueBoundaries`, `parsePropertyValue` and
`packPropertyValue`, together with the composite format tables
`GMBND_COLOR_FORMAT` and `GMBND_LED_FORMAT` of `mqttApiV2/index.ts`. -/

/-- `V2PropertyFormatInfoBase`: one named, bounded position of a composite
type. -/
structure V2PropertyFormatInfoBase where
  name : String
  min : Option Int := none
  max : Option Int := none
deriving DecidableEq, Repr

/-- `GMBND_COLOR_FORMAT`. -/
def GMBND_COLOR_FORMAT : List V2PropertyFormatInfoBase :=
  [ { name := "white", min := some 0, max := some 255 },
    { name := "red", min := some 0, max := some 255 },
    { name := "green", min := some 0, max := some 255 },
    { name := "blue", min := some 0, max := some 255 } ]

/-- `GMBND_LED_FORMAT`. -/
def GMBND_LED_FORMAT : List V2PropertyFormatInfoBase :=
  [ { name := "index", min := some 0, max := some 65535 },
    { name := "brightness", min := some 0, max := some 255 },
    { name := "white", min := some 0, max := some 255 },
    { name := "red", min := some 0, max := some 255 },
    { name := "green", min := some 0, max := some 255 },
    { name := "blue", min := some 0, max := some 255 } ]

/-- The min/max checks applied to one scalar (numbers and `Long`s alike;
booleans and strings pass through). -/
def checkScalarBounds (lo hi : Option Int) (v : DataType) : Except JsError Unit :=
  match v with
  | .num n =>
    match lo with
    | some m =>
      if n < m then .error (.jsError "Property value falls below expected minimum")
      else
        match hi with
        | some mx =>
          if n > mx then .error (.jsError "Property value falls above expected maximum")
          else .ok ()
        | none => .ok ()
    | none =>
      match hi with
      | some mx =>
        if n > mx then .error (.jsError "Property value falls above expected maximum")
        else .ok ()
      | none => .ok ()
  | _ => .ok ()

/-- The element loop of `validateExtendedPropertyValueBoundaries`, walking
the values against the composite format positions. -/
def validateExtendedLoop : List (DataType × V2PropertyFormatInfoBase) → Except JsError Unit
  | [] => .ok ()
  | (v, fmt) :: rest =>
    match checkScalarBounds fmt.min fmt.max v with
    | .error e => .error e
    | .ok _ => validateExtendedLoop rest

/-- `validateExtendedPropertyValueBoundaries`: arity must equal the
composite's field count, then each position is checked against its fixed
range. -/
def validateExtendedPropertyValueBoundaries (values : List DataType)
    (propertyFormatting : List V2PropertyFormatInfoBase) : Except JsError Unit :=
  if values.length ≠ propertyFormatting.length then
    .error (.jsError "Incorrect number of values provided for property type")
  else validateExtendedLoop (values.zip propertyFormatting)

/-- The element loop of the `gmbnd_primitive` case of
`validatePropertyValueBoundaries`. -/
def validatePrimitiveLoop (lo hi : Option Int) : List DataType → Except JsError Unit
  | [] => .ok ()
  | v :: rest =>
    match checkScalarBounds lo hi v with
    | .error e => .error e
    | .ok _ => validatePrimitiveLoop lo hi rest

/-- `V2PacketParser.validatePropertyValueBoundaries`: dispatch on the
property type; returns the values unchanged on success. (The source wraps
the body in a try/catch that rethrows the error; the embedding keeps the
error.) -/
def validatePropertyValueBoundaries (values : List DataType)
    (propertyRegistration : V2PropertyRegistration) : Except JsError (List DataType) :=
  let res :=
    match propertyRegistration.type with
    | .gmbnd_primitive =>
      validatePrimitiveLoop propertyRegistration.min propertyRegistration.max values
    | .gmbnd_color => validateExtendedPropertyValueBoundaries values GMBND_COLOR_FORMAT
    | .gmbnd_led => validateExtendedPropertyValueBoundaries values GMBND_LED_FORMAT
  match res with
  | .error e => .error e
  | .ok _ => .ok values

/-- Decimal digits of a natural number, accumulated from the right; the
fuel only bounds the recursion and `n + 1` is always enough. -/
def natDigitsGo : Nat → Nat → List Char → List Char
  | 0, _, acc => acc
  | fuel + 1, n, acc =>
    if n < 10 then Char.ofNat (48 + n) :: acc
    else natDigitsGo fuel (n / 10) (Char.ofNat (48 + n % 10) :: acc)

/-- JavaScript `String(n)` for a natural number: decimal digits. -/
def natDigits (n : Nat) : List Char := natDigitsGo (n + 1) n []

/-- JavaScript `String(n)`. -/
def natToDecimalString (n : Nat) : String := String.mk (natDigits n)

/-- JavaScript `String.prototype.includes` for a single character. -/
def containsChar (s : String) (ch : Char) : Bool := s.data.contains ch

/-- The `while (itemIndex < registration.length && bufferIndex + itemSize
<= payload.length)` loop of `parsePropertyValue`: the fuel is
`registration.length - itemIndex`. Each accepted item is bounds-checked. -/
def parsePropertyValueLoop (reg : V2PropertyRegistration) (fmt : StructFormat)
    (itemSize : Nat) (payload : List Nat) :
    Nat → Nat → Except JsError (List (List DataType))
  | 0, _ => .ok []
  | fuel + 1, bufferIndex =>
    if bufferIndex + itemSize ≤ payload.length then
      match unpackItems fmt.littleEndian fmt.items (payload.drop bufferIndex) with
      | .error e => .error e
      | .ok (item, _) =>
        match validatePropertyValueBoundaries item reg with
        | .error e => .error e
        | .ok _ =>
          match parsePropertyValueLoop reg fmt itemSize payload fuel (bufferIndex + itemSize) with
          | .error e => .error e
          | .ok rest => .ok (item :: rest)
    else .ok []

/-- `V2PacketParser.parsePropertyValue`: for a `gmbnd_primitive` whose
format contains `s`, an empty payload short-circuits to `[[""]]` and
otherwise `min(registration.length, payload.length)` is prefixed to the
format; the payload is then unpacked iteratively. Any inner error is
caught and rethrown as the struct-parse error. -/
def parsePropertyValue (payload : List Nat)
    (propertyRegistration : V2PropertyRegistration) :
    Except JsError (List (List DataType)) :=
  let run : String → Except JsError (List (List DataType)) := fun formatString =>
    match parseStructFormat formatString with
    | none => .error (.jsError "invalid struct format")
    | some fmt =>
      parsePropertyValueLoop propertyRegistration fmt (structSizeOfItems fmt.items)
        payload propertyRegistration.length 0
  let body :=
    if propertyRegistration.type = .gmbnd_primitive
        && containsChar propertyRegistration.format 's' then
      if payload.length = 0 then .ok [[DataType.str ""]]
      else
        let stringBufferLen := min propertyRegistration.length payload.length
        run (natToDecimalString stringBufferLen ++ propertyRegistration.format)
    else run propertyRegistration.format
  match body with
  | .error _ => .error (.jsError "Payload could not be struct parsed")
  | .ok v => .ok v

/-- `PROPERTY_FORMAT_STRING_REGEX`: the test of `/^[@=!<>]?(s)+$/`. -/
def stringFormatRegexTest (format : String) : Bool :=
  let cs := format.data
  let rest :=
    match cs with
    | [] => cs
    | m :: r =>
      if m = '@' || m = '=' || m = '!' || m = '<' || m = '>' then r else cs
  !rest.isEmpty && rest.all (fun ch => ch = 's')

/-- JavaScript `String.prototype.length`: the number of UTF-16 code units
(characters above `U+FFFF` count twice). -/
def jsStringLength (s : String) : Nat :=
  s.data.foldl (fun n ch => n + (if ch.toNat < 65536 then 1 else 2)) 0

/-- The format rewrite of `packPropertyValue`:
`format.substring(0, sIndex) + String(length) + format.substring(sIndex)`
with `sIndex = format.indexOf('s')`. -/
def stringFormatRewrite (format : String) (len : Nat) : String :=
  let sIndex := format.data.findIdx (fun ch => ch = 's')
  String.mk (format.data.take sIndex) ++ toString len
    ++ String.mk (format.data.drop sIndex)

/-- `Buffer.concat(values.map((value) => struct.pack(format, value)))`. -/
def packRecordsConcat (format : String) : List (List DataType) → Except JsError (List Nat)
  | [] => .ok []
  | record :: rest =>
    match structPack format record with
    | .error e => .error e
    | .ok bs =>
      match packRecordsConcat format rest with
      | .error e => .error e
      | .ok tail => .ok (bs ++ tail)

/-- `V2PacketParser.packPropertyValue`: when the format matches the string
regex, the first scalar of the first record must be a string (else a
`TypeError`); its JavaScript length is spliced into the format before the
first `s` and only that string is packed. Otherwise each record is packed
with the format and the buffers are concatenated. -/
def packPropertyValue (format : String) (values : List (List DataType)) :
    Except JsError (List Nat) :=
  if stringFormatRegexTest format then
    match values.head?.bind List.head? with
    | some (.str s) =>
      packRecordsConcat (stringFormatRewrite format (jsStringLength s)) [[DataType.str s]]
    | _ => .error .typeError
  else packRecordsConcat format values

/-! ## The default in-memory registration cache

Embedded from `hardwareRegistrationCache/defaultHardwareRegistrationCache.ts`
(`HardwareRegistrationCache`). The registration hash is an insertion-ordered
association list from componentId to a partial manifest; each source
sub-record may be absent (it can be deleted by `clearInfoAndRegistered`),
and reading a field of an absent record is a `TypeError`, as in JavaScript.
Operations return the possibly mutated hash also on error, because a throw
does not undo earlier mutations. -/

/-- A source sub-record (`PartialAppRegistration` /
`PartialSystemRegistration`): `properties` always present, `info` and
`isRegistered` optional. The properties map is insertion-ordered and keyed
by property topic. -/
structure SourceRec where
  info : Option SrcInfo := none
  properties : List (String × V2PropertyRegistration) := []
  isRegistered : Option Bool := none
deriving DecidableEq, Repr

/-- A per-component manifest (`PartialHardwareManifest`). -/
structure Manifest where
  apiVersion : Option Nat := none
  system : Option SourceRec := some {}
  app : Option SourceRec := some {}
deriving DecidableEq, Repr

/-- The in-memory registration hash (`RegistrationHash`). -/
abbrev RegistrationHash := List (String × Manifest)

/-- JavaScript object indexing on an insertion-ordered association list. -/
def alistLookup {β : Type} : List (String × β) → String → Option β
  | [], _ => none
  | (k0, v0) :: rest, k => if k = k0 then some v0 else alistLookup rest k

/-- Replace the value at every entry whose key is `k`. -/
def alistReplace {β : Type} : List (String × β) → String → β → List (String × β)
  | [], _, _ => []
  | (k0, v0) :: rest, k, v =>
    if k0 = k then (k, v) :: alistReplace rest k v
    else (k0, v0) :: alistReplace rest k v

/-- JavaScript object assignment `obj[key] = v` on an insertion-ordered
association list: replace in place when the key exists, else append. -/
def alistSet {β : Type} (l : List (String × β)) (k : String) (v : β) : List (String × β) :=
  if (alistLookup l k).isSome then alistReplace l k v
  else l ++ [(k, v)]

/-- JavaScript object indexing `obj[key]`. -/
def hashGet (h : RegistrationHash) (componentId : String) : Option Manifest :=
  alistLookup h componentId

/-- JavaScript assignment `obj[key] = v`. -/
def hashSet (h : RegistrationHash) (componentId : String) (m : Manifest) : RegistrationHash :=
  alistSet h componentId m

/-- Removal of every entry with key `k` (JavaScript `delete obj[key]`). -/
def alistRemove {β : Type} : List (String × β) → String → List (String × β)
  | [], _ => []
  | (k0, v0) :: rest, k =>
    if k0 = k then alistRemove rest k else (k0, v0) :: alistRemove rest k

/-- JavaScript `delete obj[key]`. -/
def hashDelete (h : RegistrationHash) (componentId : String) : RegistrationHash :=
  alistRemove h componentId

theorem alistLookup_append {β : Type} (l1 l2 : List (String × β)) (k : String) :
    alistLookup (l1 ++ l2) k = ((alistLookup l1 k).or (alistLookup l2 k)) := by
  induction l1 with
  | nil => simp [alistLookup]
  | cons p t ih =>
    rcases p with ⟨pk, pv⟩
    by_cases hp : k = pk <;> simp [alistLookup, hp, ih]

theorem alistLookup_alistReplace_self {β : Type} (k : String) (v : β) :
    ∀ (l : List (String × β)), (alistLookup l k).isSome →
    alistLookup (alistReplace l k v) k = some v := by
  intro l
  induction l with
  | nil => intro hl; simp [alistLookup] at hl
  | cons p t ih =>
    rcases p with ⟨pk, pv⟩
    intro hl
    by_cases hp : pk = k
    · subst hp
      simp [alistReplace, alistLookup]
    · have hk : ¬ k = pk := fun hk2 => hp hk2.symm
      simp only [alistReplace, if_neg hp, alistLookup, hk, if_false] at hl ⊢
      exact ih hl

theorem alistLookup_alistReplace_ne {β : Type} (k k2 : String) (v : β) (hne : k2 ≠ k) :
    ∀ (l : List (String × β)),
    alistLookup (alistReplace l k v) k2 = alistLookup l k2 := by
  intro l
  induction l with
  | nil => simp [alistReplace]
  | cons p t ih =>
    rcases p with ⟨pk, pv⟩
    by_cases hp : pk = k
    · subst hp
      simp only [alistReplace, if_pos rfl, alistLookup, hne, if_false, ih]
    · simp only [alistReplace, if_neg hp, alistLookup]
      by_cases hk : k2 = pk
      · simp [hk]
      · simp [hk, ih]

theorem alistSet_lookup_self {β : Type} (l : List (String × β)) (k : String) (v : β) :
    alistLookup (alistSet l k v) k = some v := by
  unfold alistSet
  split
  · next hl => exact alistLookup_alistReplace_self k v l hl
  · rw [alistLookup_append]
    next hl =>
    have hnone : alistLookup l k = none := by
      cases h : alistLookup l k with
      | none => rfl
      | some w => rw [h] at hl; simp at hl
    rw [hnone]
    simp [alistLookup]

theorem alistSet_lookup_ne {β : Type} (l : List (String × β)) (k k2 : String) (v : β)
    (hne : k2 ≠ k) : alistLookup (alistSet l k v) k2 = alistLookup l k2 := by
  unfold alistSet
  split
  · exact alistLookup_alistReplace_ne k k2 v hne l
  · rw [alistLookup_append]
    simp [alistLookup, hne]

theorem hashGet_hashSet_self (h : RegistrationHash) (k : String) (v : Manifest) :
    hashGet (hashSet h k v) k = some v :=
  alistSet_lookup_self h k v

theorem hashGet_hashSet_ne (h : RegistrationHash) (k k2 : String) (v : Manifest)
    (hne : k2 ≠ k) : hashGet (hashSet h k v) k2 = hashGet h k2 :=
  alistSet_lookup_ne h k k2 v hne

theorem hashGet_hashDelete_self (h : RegistrationHash) (k : String) :
    hashGet (hashDelete h k) k = none := by
  unfold hashGet hashDelete
  induction h with
  | nil => simp [alistRemove, alistLookup]
  | cons p t ih =>
    rcases p with ⟨pk, pv⟩
    by_cases hp : pk = k
    · simp only [alistRemove, if_pos hp]
      exact ih
    · have hk : ¬ k = pk := fun h2 => hp h2.symm
      simp only [alistRemove, if_neg hp, alistLookup, hk, if_false]
      exact ih

/-- `manifest[source]`. -/
def Manifest.getSrc (m : Manifest) : V2Source → Option SourceRec
  | .system => m.system
  | .app => m.app

/-- Assignment/deletion of `manifest[source]`. -/
def Manifest.setSrc (m : Manifest) (source : V2Source) (r : Option SourceRec) : Manifest :=
  match source with
  | .system => { m with system := r }
  | .app => { m with app := r }

/-- The properties map: `props[topic] = reg`. -/
def propsSet (props : List (String × V2PropertyRegistration)) (topic : String)
    (reg : V2PropertyRegistration) : List (String × V2PropertyRegistration) :=
  alistSet props topic reg

/-- Outcome of a cache operation: the resulting value or the raised error,
in either case with the registration hash as left by the operation. -/
inductive CResult (α : Type)
  | ok (a : α) (hash : RegistrationHash)
  | err (e : JsError) (hash : RegistrationHash)
deriving Repr

namespace HardwareRegistrationCache

/-- `initCachedHardwareManifest`: create the manifest with empty source
records if absent. -/
def initCachedHardwareManifest (h : RegistrationHash) (componentId : String) :
    RegistrationHash :=
  match hashGet h componentId with
  | some _ => h
  | none =>
    hashSet h componentId
      { system := some { properties := [] }, app := some { properties := [] } }

/-- `cacheMQTTAPIVersion`. -/
def cacheMQTTAPIVersion (h : RegistrationHash) (componentId : String) (apiVersion : Nat) :
    CResult Unit :=
  let h := initCachedHardwareManifest h componentId
  match hashGet h componentId with
  | none => .err .typeError h
  | some m => .ok () (hashSet h componentId { m with apiVersion := some apiVersion })

/-- `getMQTTAPIVersion` (`?.` chain: never throws). -/
def getMQTTAPIVersion (h : RegistrationHash) (componentId : String) : CResult (Option Nat) :=
  .ok ((hashGet h componentId).bind Manifest.apiVersion) h

/-- `cacheSystemInfo`: `registrationHash[cid].system.info = systemInfo`
(a `TypeError` if the system record was deleted). -/
def cacheSystemInfo (h : RegistrationHash) (componentId : String) (systemInfo : V2SystemInfo) :
    CResult Unit :=
  let h := initCachedHardwareManifest h componentId
  match hashGet h componentId with
  | none => .err .typeError h
  | some m =>
    match m.system with
    | none => .err .typeError h
    | some r =>
      .ok () (hashSet h componentId
        { m with system := some { r with info := some (.sys systemInfo) } })

/-- `getSystemInfo`: `registrationHash[componentId]?.system?.info`. -/
def getSystemInfo (h : RegistrationHash) (componentId : String) : CResult (Option SrcInfo) :=
  .ok (((hashGet h componentId).bind Manifest.system).bind SourceRec.info) h

/-- `cacheApplicationInfo`. -/
def cacheApplicationInfo (h : RegistrationHash) (componentId : String)
    (applicationInfo : V2ApplicationInfo) : CResult Unit :=
  let h := initCachedHardwareManifest h componentId
  match hashGet h componentId with
  | none => .err .typeError h
  | some m =>
    match m.app with
    | none => .err .typeError h
    | some r =>
      .ok () (hashSet h componentId
        { m with app := some { r with info := some (.app applicationInfo) } })

/-- `getApplicationInfo`: `registrationHash[componentId]?.app.info` — note
the missing `?.` after `app`: a deleted app record is a `TypeError`. -/
def getApplicationInfo (h : RegistrationHash) (componentId : String) : CResult (Option SrcInfo) :=
  match hashGet h componentId with
  | none => .ok none h
  | some m =>
    match m.app with
    | none => .err .typeError h
    | some r => .ok r.info h

/-- `cacheProperty`. -/
def cacheProperty (h : RegistrationHash) (componentId : String) (source : V2Source)
    (propertyTopic : String) (propertyRegistration : V2PropertyRegistration) : CResult Unit :=
  let h := initCachedHardwareManifest h componentId
  match hashGet h componentId with
  | none => .err .typeError h
  | some m =>
    match m.getSrc source with
    | none => .err .typeError h
    | some r =>
      .ok () (hashSet h componentId
        (m.setSrc source
          (some { r with properties := propsSet r.properties propertyTopic propertyRegistration })))

/-- `getProperty`: `registrationHash[componentId][source].properties[topic]`
— a `TypeError` for an unknown componentId or a deleted source record. -/
def getProperty (h : RegistrationHash) (componentId : String) (source : V2Source)
    (propertyTopic : String) : CResult (Option V2PropertyRegistration) :=
  match hashGet h componentId with
  | none => .err .typeError h
  | some m =>
    match m.getSrc source with
    | none => .err .typeError h
    | some r => .ok (alistLookup r.properties propertyTopic) h

/-- `getAllProperties`: `Object.values(...)` in insertion order — a
`TypeError` for an unknown componentId or a deleted source record. -/
def getAllProperties (h : RegistrationHash) (componentId : String) (source : V2Source) :
    CResult (List V2PropertyRegistration) :=
  match hashGet h componentId with
  | none => .err .typeError h
  | some m =>
    match m.getSrc source with
    | none => .err .typeError h
    | some r => .ok (r.properties.map Prod.snd) h

/-- `clearProperties`. -/
def clearProperties (h : RegistrationHash) (componentId : String) (source : V2Source) :
    CResult Unit :=
  let h := initCachedHardwareManifest h componentId
  match hashGet h componentId with
  | none => .err .typeError h
  | some m =>
    match m.getSrc source with
    | none => .err .typeError h
    | some r =>
      .ok () (hashSet h componentId (m.setSrc source (some { r with properties := [] })))

/-- `setRegistered`. -/
def setRegistered (h : RegistrationHash) (componentId : String) (source : V2Source)
    (isRegistered : Bool) : CResult Unit :=
  let h := initCachedHardwareManifest h componentId
  match hashGet h componentId with
  | none => .err .typeError h
  | some m =>
    match m.getSrc source with
    | none => .err .typeError h
    | some r =>
      .ok () (hashSet h componentId
        (m.setSrc source (some { r with isRegistered := some isRegistered })))

/-- `isRegistered`: `registrationHash[componentId][source].isRegistered ===
true` — a `TypeError` for an unknown componentId or a deleted source
record. -/
def isRegistered (h : RegistrationHash) (componentId : String) (source : V2Source) :
    CResult Bool :=
  match hashGet h componentId with
  | none => .err .typeError h
  | some m =>
    match m.getSrc source with
    | none => .err .typeError h
    | some r => .ok (r.isRegistered = some true) h

/-- `clearInfoAndRegistered`:
`delete registrationHash[componentId][source];
registrationHash[componentId][source].isRegistered = false;` — the delete
throws for an unknown componentId, and otherwise the assignment reads the
just-deleted record, so the method always rejects with a `TypeError`. -/
def clearInfoAndRegistered (h : RegistrationHash) (componentId : String) (source : V2Source) :
    CResult Unit :=
  match hashGet h componentId with
  | none => .err .typeError h
  | some m =>
    let h2 := hashSet h componentId (m.setSrc source none)
    .err .typeError h2

/-- `clearCachedValues`:
`Promise.all([clearInfoAndRegistered(...), clearProperties(...)])` — both
synchronous bodies run (in argument order), and the first rejection wins. -/
def clearCachedValues (h : RegistrationHash) (componentId : String) (source : V2Source) :
    CResult Unit :=
  match clearInfoAndRegistered h componentId source with
  | .ok _ h1 =>
    match clearProperties h1 componentId source with
    | .ok _ h2 => .ok () h2
    | .err e h2 => .err e h2
  | .err e h1 =>
    match clearProperties h1 componentId source with
    | .ok _ h2 => .err e h2
    | .err _ h2 => .err e h2

/-- `clearAllCacheForComponentId`: `delete registrationHash[componentId]`
(never throws). -/
def clearAllCacheForComponentId (h : RegistrationHash) (componentId : String) : CResult Unit :=
  .ok () (hashDelete h componentId)

end HardwareRegistrationCache

/-! ## The V2 dispatcher (`MqttApiV2`, `mqttEventHandler/mqttApiV2/index.ts`)

State: the registration hash, the pending registration timers
(`registrationTimeouts`), and the list of emitted events in order. Each
top-level handler catches every error (logging it), so the handlers are
total state transformers; inner actions may raise. The per-source cache
locks always succeed in this sequential model, so
`lockRegistrationCacheAndPerformAction` reduces to running the action and
re-raising its error, exactly as the source helper in
`mqttEventHandler/common.ts` does once its locks are acquired. -/

/-- The typed events of `V2_EVENTS` that the embedded handlers emit. -/
inductive V2Event
  | receivedMsg (componentId : String) (topic : String)
  | unhandledMsg (componentId : String) (topic : String)
  | online (componentId : String) (online : Bool)
  | registered (componentId : String) (source : V2Source) (registered : Bool)
deriving DecidableEq, Repr

/-- Dispatcher state: cache hash, pending per-(source, componentId)
registration timers, events emitted so far. -/
structure DispatchState where
  hash : RegistrationHash := []
  timeouts : List (V2Source × String) := []
  events : List V2Event := []
deriving Repr

/-- Outcome of a dispatcher action: value or raised error, with the state
as left behind (a JavaScript throw keeps prior mutations). -/
inductive HResult (α : Type)
  | ok (a : α) (s : DispatchState)
  | err (e : JsError) (s : DispatchState)

/-- The dispatcher action monad. -/
def HandlerM (α : Type) : Type := DispatchState → HResult α

instance : Monad HandlerM where
  pure a := fun s => .ok a s
  bind x f := fun s =>
    match x s with
    | .ok a s1 => f a s1
    | .err e s1 => .err e s1

/-- Raise a JavaScript error. -/
def throwJs {α : Type} (e : JsError) : HandlerM α := fun s => .err e s

/-- `try ... catch (e) { ... }`. -/
def tryCatch {α : Type} (x : HandlerM α) (handler : JsError → HandlerM α) : HandlerM α :=
  fun s =>
    match x s with
    | .ok a s1 => .ok a s1
    | .err e s1 => handler e s1

/-- `try ... catch (e) { log; }`: the outer catch of every handler. -/
def tryCatchLog (x : HandlerM Unit) : HandlerM Unit :=
  tryCatch x (fun _ => pure ())

/-- Reify an action's outcome (`try { ... } catch (e) { return }` shapes). -/
def attempt {α : Type} (x : HandlerM α) : HandlerM (Except JsError α) := fun s =>
  match x s with
  | .ok a s1 => .ok (.ok a) s1
  | .err e s1 => .ok (.error e) s1

/-- Run a cache operation against the dispatcher's hash. -/
def liftCache {α : Type} (f : RegistrationHash → CResult α) : HandlerM α := fun s =>
  match f s.hash with
  | .ok a h => .ok a { s with hash := h }
  | .err e h => .err e { s with hash := h }

/-- `this.emit(...)`. -/
def emit (ev : V2Event) : HandlerM Unit := fun s =>
  .ok () { s with events := s.events ++ [ev] }

/-- `lockRegistrationCacheAndPerformAction` (`mqttEventHandler/common.ts`):
acquire the requested source locks, run the action, release, re-raising
the action's error. Sequentially the locks are always free, so the helper
is the action itself. -/
def lockRegistrationCacheAndPerformAction {α : Type} (_locks : List V2Source)
    (_componentId : String) (action : HandlerM α) : HandlerM α :=
  action

/-- `Promise.all([a, b])` over two already-started synchronous bodies:
both run in argument order; the first rejection wins. -/
def promiseAll2 (x y : HandlerM Unit) : HandlerM Unit := fun s =>
  match x s with
  | .ok _ s1 =>
    match y s1 with
    | .ok _ s2 => .ok () s2
    | .err e s2 => .err e s2
  | .err e s1 =>
    match y s1 with
    | .ok _ s2 => .err e s2
    | .err _ s2 => .err e s2

namespace MqttApiV2

/-- `setRegistrationTimeoutForComponentIdAndSource`: cancel any pending
timer for `(source, componentId)` and arm a fresh ≈3-second one (the
timer set is modelled as a set of armed keys). -/
def setRegistrationTimeoutForComponentIdAndSource (componentId : String) (source : V2Source) :
    HandlerM Unit := fun s =>
  .ok () { s with timeouts :=
    if (source, componentId) ∈ s.timeouts then s.timeouts
    else (source, componentId) :: s.timeouts }

/-- `clearTimeout(this.registrationTimeouts[source][componentId])`. -/
def clearRegistrationTimeout (componentId : String) (source : V2Source) : HandlerM Unit :=
  fun s =>
    .ok () { s with timeouts := s.timeouts.filter (fun p => p ≠ (source, componentId)) }

/-- `completeSuccessfulRegistration`: set the registered flag (a cache
failure is rethrown) and emit `REGISTERED{registered:true}`. -/
def completeSuccessfulRegistration (componentId : String) (source : V2Source) :
    HandlerM Unit := do
  tryCatch (liftCache (fun h =>
      HardwareRegistrationCache.setRegistered h componentId source true))
    (fun _ => throwJs (.jsError "Failed to set isRegistered to true in the cache"))
  emit (.registered componentId source true)

/-- `handleSystemInfo`, parameterized by the injected
`packetParser.parseSystemInfo`. An empty payload is the will message:
emit `ONLINE{online:false}` and, under the combined system+app lock, clear
the whole componentId (errors logged). Otherwise emit
`ONLINE{online:true}`; on a parse failure the component state is cleared
and the subsequent cache block dereferences the undefined info (caught and
logged); on success the api version and info are cached under the system
lock, completing registration immediately when `num_props` is zero and
otherwise arming the completion-check timer. -/
def handleSystemInfo (parseSystemInfo : List Nat → Except JsError V2SystemInfo)
    (componentId : String) (payload : List Nat) : HandlerM Unit := do
  if payload.length = 0 then
    emit (.online componentId false)
    tryCatchLog (lockRegistrationCacheAndPerformAction [.system, .app] componentId
      (liftCache (fun h =>
        HardwareRegistrationCache.clearAllCacheForComponentId h componentId)))
  else do
  emit (.online componentId true)
  match parseSystemInfo payload with
  | .error _ =>
    tryCatchLog (lockRegistrationCacheAndPerformAction [.system, .app] componentId
      (liftCache (fun h =>
        HardwareRegistrationCache.clearAllCacheForComponentId h componentId)))
    tryCatchLog (lockRegistrationCacheAndPerformAction [.system] componentId
      (throwJs .typeError))
  | .ok systemInfo =>
    tryCatchLog (lockRegistrationCacheAndPerformAction [.system] componentId (do
      liftCache (fun h =>
        HardwareRegistrationCache.cacheMQTTAPIVersion h componentId systemInfo.api_ver)
      liftCache (fun h =>
        HardwareRegistrationCache.cacheSystemInfo h componentId systemInfo)
      if systemInfo.num_props = 0 then
        completeSuccessfulRegistration componentId .system
      else
        setRegistrationTimeoutForComponentIdAndSource componentId .system))

/-- `handleAppInfo`, parameterized by the injected
`packetParser.parseApplicationInfo`. -/
def handleAppInfo (parseApplicationInfo : List Nat → Except JsError V2ApplicationInfo)
    (componentId : String) (payload : List Nat) : HandlerM Unit :=
  tryCatchLog (lockRegistrationCacheAndPerformAction [.app] componentId (do
    let applicationRegistrationPreviouslyCompleted ←
      liftCache (fun h => HardwareRegistrationCache.isRegistered h componentId .app)
    if applicationRegistrationPreviouslyCompleted then
      tryCatch (liftCache (fun h =>
          HardwareRegistrationCache.clearCachedValues h componentId .app))
        (fun _ => throwJs (.jsError "Failed to clear application registration from cache"))
      emit (.registered componentId .app false)
    match parseApplicationInfo payload with
    | .error _ => throwJs (.jsError "Invalid app info payload")
    | .ok appInfo =>
      tryCatch (liftCache (fun h =>
          HardwareRegistrationCache.cacheApplicationInfo h componentId appInfo))
        (fun _ => throwJs (.jsError "Failed to cache Application Info"))
      if appInfo.num_props = 0 then
        completeSuccessfulRegistration componentId .app
      else
        setRegistrationTimeoutForComponentIdAndSource componentId .app))

/-- The conflict test of `handlePropertyRegistration`: a cached record
whose index matches but whose path differs, or whose path matches but
whose index differs. -/
def conflictsWith (registeredProps : List V2PropertyRegistration)
    (prop : V2PropertyRegistration) : Bool :=
  registeredProps.any (fun cachedProp =>
    (cachedProp.index = prop.index && cachedProp.path ≠ prop.path)
      || (cachedProp.path = prop.path && cachedProp.index ≠ prop.index))

/-- The part of `handlePropertyRegistration` from the `parseProperty`
result on: a parse failure is rethrown; the cached records are read; a
`(path, index)` conflict skips the record (plain `return`); otherwise it
is cached (a cache failure also returns), and when the cached info's
`num_props` equals the prior count plus one the timer is cancelled and
registration completes. -/
def handlePropertyRegistrationTail (componentId : String) (source : V2Source)
    (parsed : Except JsError V2PropertyRegistration) : HandlerM Unit :=
  match parsed with
  | .error _ => throwJs (.jsError "Failed to unpack prop payload")
  | .ok prop => do
    let registeredProps ←
      tryCatch (liftCache (fun h =>
          HardwareRegistrationCache.getAllProperties h componentId source))
        (fun _ => throwJs (.jsError "Failed to get properties from cache"))
    if conflictsWith registeredProps prop then
      pure ()
    else
    match ← attempt (liftCache (fun h =>
        HardwareRegistrationCache.cacheProperty h componentId source prop.path prop)) with
    | .error _ => pure ()
    | .ok _ => do
      let sourceInfo ←
        tryCatch
          (match source with
            | .system => liftCache (fun h =>
                HardwareRegistrationCache.getSystemInfo h componentId)
            | .app => liftCache (fun h =>
                HardwareRegistrationCache.getApplicationInfo h componentId))
          (fun _ => throwJs (.jsError "Unable to get source info from the cache"))
      if sourceInfo.map SrcInfo.num_props = some (registeredProps.length + 1) then
        clearRegistrationTimeout componentId source
        completeSuccessfulRegistration componentId source

/-- `handlePropertyRegistration`, parameterized by the injected
`packetParser.parseProperty`. Under the source lock: a previously
completed registration is wiped (stray packet recovery) with an
un-registration event; then the parsed record is handled as in
`handlePropertyRegistrationTail`. -/
def handlePropertyRegistration (parseProperty : List Nat → Except JsError V2PropertyRegistration)
    (componentId : String) (source : V2Source) (payload : List Nat) : HandlerM Unit :=
  tryCatchLog (lockRegistrationCacheAndPerformAction [source] componentId (do
    let registrationPreviouslyCompleted ←
      liftCache (fun h => HardwareRegistrationCache.isRegistered h componentId source)
    if registrationPreviouslyCompleted then
      tryCatch (promiseAll2
          (liftCache (fun h =>
            HardwareRegistrationCache.clearProperties h componentId source))
          (liftCache (fun h =>
            HardwareRegistrationCache.setRegistered h componentId source false)))
        (fun _ => throwJs (.jsError "Failed to clear registration from cache"))
      emit (.registered componentId source false)
    handlePropertyRegistrationTail componentId source (parseProperty payload)))

/-- `handleRegistrationTimeout`: the ≈3-second completion-check callback.
Under the source lock: a registered source is a no-op; the info's
`num_props` is compared with the cached property count and only an unequal
count emits `REGISTERED{registered:false}` (the `!registeredProperties`
disjunct of the source condition is dead, arrays being truthy). -/
def handleRegistrationTimeout (componentId : String) (source : V2Source) : HandlerM Unit :=
  tryCatchLog (lockRegistrationCacheAndPerformAction [source] componentId (do
    let reg ←
      tryCatch (liftCache (fun h =>
          HardwareRegistrationCache.isRegistered h componentId source))
        (fun _ => throwJs (.jsError "Failed to get isRegistered from the cache"))
    if reg then
      pure ()
    else do
    let sourceInfo ←
      tryCatch
        (match source with
          | .system => liftCache (fun h =>
              HardwareRegistrationCache.getSystemInfo h componentId)
          | .app => liftCache (fun h =>
              HardwareRegistrationCache.getApplicationInfo h componentId))
        (fun _ => throwJs (.jsError "Unable to get source info from the cache"))
    match sourceInfo with
    | none => throwJs (.jsError "source info is invalid")
    | some info => do
      let expectNumberOfProps := info.num_props
      let registeredProperties ←
        tryCatch (liftCache (fun h =>
            HardwareRegistrationCache.getAllProperties h componentId source))
          (fun _ => throwJs (.jsError "Failed to get properties from the cache"))
      if (true && decide (expectNumberOfProps ≠ registeredProperties.length))
          || (false && decide (expectNumberOfProps ≠ 0)) then
        emit (.registered componentId source false)))

end MqttApiV2

/-! ## The pending-message drain (`MQTTEventHandler.handlePendingMessages`)

Embedded from `mqttEventHandler/index.ts`. The pending queue contract
(`cachePendingMessage` / `getNextPendingMessage`) is absent from the
sources at hand; per the spec it is a per-component FIFO whose
`getNextPendingMessage` pops the oldest entry and returns null when empty,
modelled here as popping the head of a list. Wall-clock time is modelled
by the observed state of the `timeout` flag at each loop iteration
(`flagAt i` is the flag when iteration `i` reaches its check; the flag is
set by a 3-second timer). -/

/-- A buffered pending message. -/
structure PendingMessage where
  topic : String
  payload : List Nat
deriving DecidableEq, Repr

/-- Result of one drain run. -/
structure PendingDrainResult where
  /-- Messages handed to `handleVersionedMessage`, in order (failures are
  caught and logged, so handing over always continues the loop). -/
  handled : List PendingMessage
  /-- The message popped by `getNextPendingMessage` in the iteration that
  observed the timeout: it has left the queue but is never handled. -/
  dropped : Option PendingMessage
  /-- What remains in the component's pending queue afterwards. -/
  queue : List PendingMessage
  /-- Whether the timeout was logged. -/
  timedOutLogged : Bool
deriving DecidableEq, Repr

/-- The drain loop: pop, then check the timeout flag, then handle. -/
def handlePendingMessagesGo (flagAt : Nat → Bool) : Nat → List PendingMessage →
    PendingDrainResult
  | _, [] => { handled := [], dropped := none, queue := [], timedOutLogged := false }
  | i, m :: rest =>
    if flagAt i then
      { handled := [], dropped := some m, queue := rest, timedOutLogged := true }
    else
      let r := handlePendingMessagesGo flagAt (i + 1) rest
      { r with handled := m :: r.handled }

/-- `MQTTEventHandler.handlePendingMessages` over the component's queue. -/
def handlePendingMessages (flagAt : Nat → Bool) (queue : List PendingMessage) :
    PendingDrainResult :=
  handlePendingMessagesGo flagAt 0 queue

/-! ## The property-set publication path (`utils/property.ts`)

`setPropertyValue` is embedded from its source; the two cache reads are
injected as their results (the function is written against the
`IHardwareRegistrationCache` interface, and its tests drive it through
mocked reads). -/

/-- `V2PropSetEndpoint` (`types/mqtt-api/mqtt-api-v2.ts`). -/
def V2PropSetEndpoint (componentId : String) (propertyPath : String) (source : V2Source) :
    String :=
  componentId ++ "/" ++ source.toStr ++ "/prop/set/" ++ propertyPath

/-- Errors of the property-set path. -/
inductive SetPropErr
  | propertyInvalid
  | propertyAccess
  | lowLevel (e : JsError)
deriving DecidableEq, Repr

/-- Modelled from the spec: `V2PacketParser.setPropertyValue` is absent
from the sources at hand (only its caller is present); per spec section
4.E it packs the values with the registration's format and calls the
publish function on the `V2PropSetEndpoint` topic of the registration's
path. Packing is the source `packPropertyValue`; the result is the
published (topic, bytes) pair. -/
def v2ParserSetPropertyValue (componentId : String) (source : V2Source)
    (propertyRegistration : V2PropertyRegistration) (values : List (List DataType)) :
    Except JsError (String × List Nat) :=
  match packPropertyValue propertyRegistration.format values with
  | .error e => .error e
  | .ok bytes => .ok (V2PropSetEndpoint componentId propertyRegistration.path source, bytes)

/-- `setPropertyValue` (`utils/property.ts`): a missing registration or
api version raises `PropertyInvalidError`; a non-settable registration
raises `PropertyAccessError`; otherwise the V2 parser packs and publishes. -/
def setPropertyValue (propertyRegistration : Option V2PropertyRegistration)
    (apiVersion : Option Nat) (componentId : String) (source : V2Source)
    (propertyPath : String) (values : List (List DataType)) :
    Except SetPropErr (String × List Nat) :=
  match propertyRegistration, apiVersion with
  | none, _ => .error .propertyInvalid
  | some _, none => .error .propertyInvalid
  | some reg, some v =>
    if reg.settable ≠ true then .error .propertyAccess
    else
      match v with
      | 2 =>
        match v2ParserSetPropertyValue componentId source reg values with
        | .error e => .error (.lowLevel e)
        | .ok out => .ok out
      | _ => .error (.lowLevel (.jsError "exhaustiveGuard: unsupported api version"))

/-! ## Helpers for stating and proving the claims -/

/-- Run a dispatcher action for its final state (each embedded top-level
handler catches all errors, so the final state is the whole story). -/
def runHandler (x : HandlerM Unit) (s : DispatchState) : DispatchState :=
  match x s with
  | .ok _ s1 => s1
  | .err _ s1 => s1

theorem HandlerM.bind_apply {α β : Type} (x : HandlerM α) (f : α → HandlerM β)
    (s : DispatchState) :
    (x >>= f) s =
      match x s with
      | .ok a s1 => f a s1
      | .err e s1 => .err e s1 := rfl

theorem HandlerM.pure_apply {α : Type} (a : α) (s : DispatchState) :
    (pure a : HandlerM α) s = .ok a s := rfl

/-- The error component of a cache result. -/
def CResult.errorOf {α : Type} : CResult α → Option JsError
  | .ok _ _ => none
  | .err e _ => some e

/-! ## Decimal rendering and format parsing facts -/

theorem charOfNat_digit_toNat : ∀ k < 10, (Char.ofNat (48 + k)).toNat = 48 + k := by
  intro k hk
  interval_cases k <;> rfl

theorem charOfNat_digit_isDigit : ∀ k < 10, (Char.ofNat (48 + k)).isDigit = true := by
  intro k hk
  interval_cases k <;> rfl

/-- The well-founded twin of `natDigitsGo`, for reasoning. -/
def natDigitsRec (n : Nat) : List Char :=
  if h : n < 10 then [Char.ofNat (48 + n)]
  else natDigitsRec (n / 10) ++ [Char.ofNat (48 + n % 10)]
decreasing_by
  exact Nat.div_lt_self (by omega) (by omega)

theorem natDigitsGo_eq_rec :
    ∀ (fuel : Nat) (n : Nat) (acc : List Char), 0 < fuel → n < 10 ^ fuel →
    natDigitsGo fuel n acc = natDigitsRec n ++ acc := by
  intro fuel
  induction fuel with
  | zero => intro n acc hpos _; omega
  | succ fuel ih =>
    intro n acc _ h
    by_cases h10 : n < 10
    · rw [natDigitsGo, if_pos h10, natDigitsRec, dif_pos h10]
      simp
    · rw [natDigitsGo, if_neg h10, natDigitsRec, dif_neg h10]
      have hlt : n / 10 < 10 ^ fuel := by
        rw [Nat.div_lt_iff_lt_mul (by omega)]
        calc n < 10 ^ (fuel + 1) := h
          _ = 10 ^ fuel * 10 := by rw [pow_succ]
      have hpos2 : 0 < fuel := by
        by_contra hz
        have : fuel = 0 := by omega
        subst this
        simp at hlt
        omega
      rw [ih (n / 10) (Char.ofNat (48 + n % 10) :: acc) hpos2 hlt]
      simp

theorem natDigits_eq_rec (n : Nat) : natDigits n = natDigitsRec n := by
  have h : n < 10 ^ (n + 1) := by
    calc n < n + 1 := by omega
      _ ≤ 10 ^ (n + 1) := Nat.le_of_lt (Nat.lt_pow_self (by omega) _)
  rw [natDigits, natDigitsGo_eq_rec (n + 1) n [] (by omega) h, List.append_nil]

theorem natDigits_ne_nil (n : Nat) : natDigits n ≠ [] := by
  rw [natDigits_eq_rec]
  unfold natDigitsRec
  split <;> simp

theorem natDigits_all_digit (n : Nat) : ∀ ch ∈ natDigits n, ch.isDigit = true := by
  rw [natDigits_eq_rec]
  induction n using Nat.strong_induction_on with
  | _ n ih =>
    unfold natDigitsRec
    split
    · next h =>
      intro ch hch
      simp only [List.mem_singleton] at hch
      subst hch
      exact charOfNat_digit_isDigit n h
    · next h =>
      intro ch hch
      rw [List.mem_append] at hch
      rcases hch with hch | hch
      · exact ih (n / 10) (Nat.div_lt_self (by omega) (by omega)) ch hch
      · simp only [List.mem_singleton] at hch
        subst hch
        exact charOfNat_digit_isDigit (n % 10) (Nat.mod_lt _ (by omega))

theorem natDigits_foldl (n : Nat) :
    ∀ acc, (natDigits n).foldl (fun a d => 10 * a + (d.toNat - 48)) acc
      = acc * 10 ^ (natDigits n).length + n := by
  rw [natDigits_eq_rec]
  induction n using Nat.strong_induction_on with
  | _ n ih =>
    intro acc
    unfold natDigitsRec
    split
    · next h =>
      simp only [List.foldl_cons, List.foldl_nil, List.length_singleton]
      rw [charOfNat_digit_toNat n h]
      omega
    · next h =>
      rw [List.foldl_append]
      simp only [List.foldl_cons, List.foldl_nil, List.length_append,
        List.length_singleton]
      rw [charOfNat_digit_toNat (n % 10) (Nat.mod_lt _ (by omega)),
        ih (n / 10) (Nat.div_lt_self (by omega) (by omega)) acc]
      rw [show acc * 10 ^ ((natDigitsRec (n / 10)).length + 1)
          = acc * 10 ^ (natDigitsRec (n / 10)).length * 10 by rw [pow_succ]; ring]
      omega

theorem parseStructItems_cons (ch : Char) (rest : List Char) (acc : Nat)
    (hasDigits : Bool) :
    parseStructItems (ch :: rest) acc hasDigits
      = if ch.isDigit then parseStructItems rest (10 * acc + (ch.toNat - 48)) true
        else
          match structCodeOfChar ch with
          | none => none
          | some code =>
            (parseStructItems rest 0 false).map
              (fun tail => ((if hasDigits then acc else 1), code) :: tail) := rfl

theorem parseStructItems_digits :
    ∀ (ds : List Char), ds ≠ [] → (∀ ch ∈ ds, ch.isDigit = true) →
    ∀ (acc : Nat) (hasDigits : Bool),
    parseStructItems (ds ++ ['s']) acc hasDigits
      = some [(ds.foldl (fun a d => 10 * a + (d.toNat - 48)) acc, .s)] := by
  intro ds
  induction ds with
  | nil => intro h; exact absurd rfl h
  | cons d ds ih =>
    intro _ hdig acc hasDigits
    have hd : d.isDigit = true := hdig d (by simp)
    rw [List.cons_append, parseStructItems_cons, if_pos hd]
    match ds with
    | [] =>
      simp only [List.nil_append, List.foldl_cons, List.foldl_nil]
      rfl
    | d2 :: ds2 =>
      have hne2 : d2 :: ds2 ≠ ([] : List Char) := by simp
      have hdig2 : ∀ ch ∈ d2 :: ds2, ch.isDigit = true := by
        intro ch hch
        exact hdig ch (by simp [hch])
      rw [ih hne2 hdig2 (10 * acc + (d.toNat - 48)) true]
      simp

/-- Parsing `"<m>s"` (decimal m spliced before `s`) yields a single
`(m, s)` group in network order. -/
theorem parseStructFormat_decimal_s (m : Nat) :
    parseStructFormat (natToDecimalString m ++ "s")
      = some { littleEndian := false, items := [(m, .s)] } := by
  obtain ⟨d, ds, hds⟩ := List.exists_cons_of_ne_nil (natDigits_ne_nil m)
  have hd : d.isDigit = true := by
    apply natDigits_all_digit m
    rw [hds]
    simp
  have hm1 : ¬ ((d = '<' || d = '@' || d = '=') = true) := by
    simp only [Bool.or_eq_true, decide_eq_true_eq]
    rintro ((he | he) | he) <;> (rw [he] at hd; exact absurd hd (by decide))
  have hm2 : ¬ ((d = '>' || d = '!') = true) := by
    simp only [Bool.or_eq_true, decide_eq_true_eq]
    rintro (he | he) <;> (rw [he] at hd; exact absurd hd (by decide))
  have hdig : ∀ ch ∈ d :: ds, ch.isDigit = true := by
    rw [← hds]
    exact natDigits_all_digit m
  have hfold : (d :: ds).foldl (fun a d2 => 10 * a + (d2.toNat - 48)) 0 = m := by
    rw [← hds, natDigits_foldl m 0]
    simp
  have hdata : (natToDecimalString m ++ "s").data = d :: (ds ++ ['s']) := by
    rw [String.data_append]
    show natDigits m ++ ['s'] = d :: (ds ++ ['s'])
    rw [hds]
    simp
  unfold parseStructFormat
  rw [hdata]
  simp only [if_neg hm1, if_neg hm2]
  rw [show (d :: (ds ++ ['s'])) = (d :: ds) ++ ['s'] by simp]
  rw [parseStructItems_digits (d :: ds) (by simp) hdig 0 false, hfold]

/-- Accumulator form of the decimal fold over a digit list. -/
theorem digitsFoldl_acc : ∀ (ds : List Char) (acc : Nat),
    ds.foldl (fun a d => 10 * a + (d.toNat - 48)) acc
      = acc * 10 ^ ds.length + ds.foldl (fun a d => 10 * a + (d.toNat - 48)) 0 := by
  intro ds
  induction ds with
  | nil => intro acc; simp
  | cons d ds ih =>
    intro acc
    simp only [List.foldl_cons, List.length_cons]
    rw [ih (10 * acc + (d.toNat - 48)), ih (10 * 0 + (d.toNat - 48))]
    rw [pow_succ]
    ring

/-- Parsing the decimal rendering of `m` prefixed to a format made of
digit characters followed by `s` yields a single `s` group whose count is
the digit concatenation `m * 10 ^ k + j` (`k` digits of value `j`). -/
theorem parseStructFormat_decimal_digits_s (m : Nat) (ds : List Char)
    (hdig : ∀ ch ∈ ds, ch.isDigit = true) (fmt : String)
    (hfmt : fmt.data = ds ++ ['s']) :
    parseStructFormat (natToDecimalString m ++ fmt)
      = some ⟨false, [(m * 10 ^ ds.length +
          ds.foldl (fun a d => 10 * a + (d.toNat - 48)) 0, .s)]⟩ := by
  obtain ⟨d, dds, hds⟩ := List.exists_cons_of_ne_nil (natDigits_ne_nil m)
  have hd : d.isDigit = true := by
    apply natDigits_all_digit m
    rw [hds]
    simp
  have hm1 : ¬ ((d = '<' || d = '@' || d = '=') = true) := by
    simp only [Bool.or_eq_true, decide_eq_true_eq]
    rintro ((he | he) | he) <;> (rw [he] at hd; exact absurd hd (by decide))
  have hm2 : ¬ ((d = '>' || d = '!') = true) := by
    simp only [Bool.or_eq_true, decide_eq_true_eq]
    rintro (he | he) <;> (rw [he] at hd; exact absurd hd (by decide))
  have hdigall : ∀ ch ∈ (d :: dds) ++ ds, ch.isDigit = true := by
    intro ch hch
    rw [List.mem_append] at hch
    rcases hch with hch | hch
    · rw [← hds] at hch
      exact natDigits_all_digit m ch hch
    · exact hdig ch hch
  have hfold : ((d :: dds) ++ ds).foldl (fun a d2 => 10 * a + (d2.toNat - 48)) 0
      = m * 10 ^ ds.length + ds.foldl (fun a d2 => 10 * a + (d2.toNat - 48)) 0 := by
    rw [List.foldl_append]
    have h1 : (d :: dds).foldl (fun a d2 => 10 * a + (d2.toNat - 48)) 0 = m := by
      rw [← hds, natDigits_foldl m 0]
      simp
    rw [h1, digitsFoldl_acc]
  have hdata : (natToDecimalString m ++ fmt).data = d :: (dds ++ (ds ++ ['s'])) := by
    rw [String.data_append, hfmt]
    show natDigits m ++ (ds ++ ['s']) = d :: (dds ++ (ds ++ ['s']))
    rw [hds]
    simp
  unfold parseStructFormat
  rw [hdata]
  simp only [if_neg hm1, if_neg hm2]
  rw [show (d :: (dds ++ (ds ++ ['s']))) = ((d :: dds) ++ ds) ++ ['s'] by simp]
  rw [parseStructItems_digits ((d :: dds) ++ ds) (by simp) hdigall 0 false, hfold]

/-- A character list ending in `'s'` contains `'s'`. -/
theorem contains_append_s : ∀ ds : List Char, (ds ++ ['s']).contains 's' = true := by
  intro ds
  induction ds with
  | nil => rfl
  | cons d ds ih => simp [List.contains_cons, ih]

/-! ## The unpack loop over chunked payloads -/

/-- The payload cut into `q` chunks of `m` bytes from the front. -/
def chunksOf (m : Nat) : Nat → List Nat → List (List Nat)
  | 0, _ => []
  | q + 1, payload => payload.take m :: chunksOf m q (payload.drop m)

theorem chunksOf_flatten (m : Nat) :
    ∀ (q : Nat) (payload : List Nat), q * m ≤ payload.length →
    (chunksOf m q payload).flatten ++ payload.drop (q * m) = payload := by
  intro q
  induction q with
  | zero => intro payload _; simp [chunksOf]
  | succ q ih =>
    intro payload hq
    have hm : m ≤ payload.length := by
      calc m ≤ (q + 1) * m := by nlinarith
        _ ≤ payload.length := hq
    have hdrop : q * m ≤ (payload.drop m).length := by
      simp only [List.length_drop]
      have : (q + 1) * m = q * m + m := by ring
      omega
    simp only [chunksOf, List.flatten_cons, List.append_assoc]
    rw [show (q + 1) * m = m + q * m by ring, ← List.drop_drop, ih (payload.drop m) hdrop,
      List.take_append_drop]

theorem chunksOf_length (m : Nat) :
    ∀ (q : Nat) (payload : List Nat), q * m ≤ payload.length →
    ∀ c ∈ chunksOf m q payload, c.length = m := by
  intro q
  induction q with
  | zero => intro payload _ c hc; simp [chunksOf] at hc
  | succ q ih =>
    intro payload hq c hc
    have hm : m ≤ payload.length := by
      calc m ≤ (q + 1) * m := by nlinarith
        _ ≤ payload.length := hq
    have hdrop : q * m ≤ (payload.drop m).length := by
      simp only [List.length_drop]
      have : (q + 1) * m = q * m + m := by ring
      omega
    simp only [chunksOf, List.mem_cons] at hc
    rcases hc with rfl | hc
    · simp [List.length_take]
      omega
    · exact ih (payload.drop m) hdrop c hc

theorem chunksOf_take (m : Nat) :
    ∀ (q fuel : Nat) (payload : List Nat),
    (chunksOf m q payload).take fuel = chunksOf m (min fuel q) payload := by
  intro q
  induction q with
  | zero => intro fuel payload; simp [chunksOf]
  | succ q ih =>
    intro fuel payload
    match fuel with
    | 0 => simp [chunksOf]
    | fuel + 1 =>
      simp only [chunksOf, List.take_succ_cons]
      rw [ih fuel (payload.drop m)]
      have : min (fuel + 1) (q + 1) = min fuel q + 1 := by omega
      rw [this, chunksOf]

/-- One run of the `parsePropertyValue` loop over a payload laid out as a
prefix already consumed, a sequence of records each occupying `itemSize`
bytes, and a ragged tail shorter than one item: the loop decodes and
keeps `min fuel (number of chunks)` records. -/
theorem parsePropertyValueLoop_spec (reg : V2PropertyRegistration) (fmt : StructFormat)
    (itemSize : Nat) :
    ∀ (chunks : List (List Nat)) (values : List (List DataType))
      (pre tail : List Nat) (fuel : Nat),
    List.Forall₂ (fun c record => c.length = itemSize ∧
      (∀ rest, unpackItems fmt.littleEndian fmt.items (c ++ rest) = .ok (record, rest)) ∧
      validatePropertyValueBoundaries record reg = .ok record) chunks values →
    tail.length < itemSize →
    parsePropertyValueLoop reg fmt itemSize (pre ++ chunks.flatten ++ tail) fuel pre.length
      = .ok (values.take fuel) := by
  intro chunks values pre tail fuel hfa htail
  induction hfa generalizing pre fuel with
  | nil =>
    match fuel with
    | 0 => simp [parsePropertyValueLoop]
    | fuel + 1 =>
      simp only [List.flatten_nil, List.append_nil, List.nil_append, List.take_nil]
      rw [parsePropertyValueLoop]
      rw [if_neg (by simp; omega)]
  | cons hcr hrest ih =>
    next c record chunks2 values2 =>
    obtain ⟨hclen, hdec, hval⟩ := hcr
    match fuel with
    | 0 => simp [parsePropertyValueLoop]
    | fuel + 1 =>
      rw [parsePropertyValueLoop]
      rw [if_pos (by
        simp only [List.flatten_cons, List.length_append]
        omega)]
      have hdroppre : (pre ++ (c :: chunks2).flatten ++ tail).drop pre.length
          = c ++ (chunks2.flatten ++ tail) := by
        simp only [List.flatten_cons, List.append_assoc]
        rw [List.drop_left]
      rw [hdroppre, hdec (chunks2.flatten ++ tail)]
      simp only [hval]
      have hre : pre ++ (c :: chunks2).flatten ++ tail
          = (pre ++ c) ++ chunks2.flatten ++ tail := by
        simp [List.flatten_cons]
      have hlen2 : pre.length + itemSize = (pre ++ c).length := by
        simp [hclen]
      rw [hre, hlen2, ih (pre ++ c) fuel]
      simp

/-! ## Claims -/

/-- C10: on the default in-memory cache, `getProperty`, `getAllProperties`
and `isRegistered` reject with a `TypeError` when called for a componentId
that has never been written, instead of returning `undefined`, an empty
list, or `false`. -/
theorem default_cache_unknown_component_rejects
    (h : RegistrationHash) (componentId : String) (source : V2Source)
    (propertyTopic : String) (hnone : hashGet h componentId = none) :
    HardwareRegistrationCache.getProperty h componentId source propertyTopic
        = .err .typeError h ∧
    HardwareRegistrationCache.getAllProperties h componentId source = .err .typeError h ∧
    HardwareRegistrationCache.isRegistered h componentId source = .err .typeError h := by
  refine ⟨?_, ?_, ?_⟩ <;>
    simp [HardwareRegistrationCache.getProperty, HardwareRegistrationCache.getAllProperties,
      HardwareRegistrationCache.isRegistered, hnone]

theorem default_cache_unknown_component_rejects_witness :
    HardwareRegistrationCache.getProperty [] "c1" .app "lights/state" = .err .typeError [] ∧
    HardwareRegistrationCache.getAllProperties [] "c1" .app = .err .typeError [] ∧
    HardwareRegistrationCache.isRegistered [] "c1" .app = .err .typeError [] :=
  default_cache_unknown_component_rejects [] "c1" .app "lights/state" rfl

/-- C9: `clearInfoAndRegistered` always rejects with a `TypeError` (it
deletes the source sub-record and then assigns `isRegistered` on the
now-missing record; for an unknown componentId already the delete throws),
so `clearCachedValues` always rejects as well, and the `handleAppInfo`
cleanup path that calls it takes its error branch: the app sub-record is
deleted and the handler stops before emitting the un-registration event or
touching anything else. -/
theorem clearInfoAndRegistered_always_rejects :
    (∀ (h : RegistrationHash) (componentId : String) (source : V2Source),
      (HardwareRegistrationCache.clearInfoAndRegistered h componentId source).errorOf
        = some .typeError) ∧
    (∀ (h : RegistrationHash) (componentId : String) (source : V2Source),
      (HardwareRegistrationCache.clearCachedValues h componentId source).errorOf
        = some .typeError) ∧
    (∀ (s : DispatchState) (m : Manifest) (r : SourceRec)
      (parse : List Nat → Except JsError V2ApplicationInfo)
      (componentId : String) (payload : List Nat),
      hashGet s.hash componentId = some m → m.app = some r →
      r.isRegistered = some true →
      runHandler (MqttApiV2.handleAppInfo parse componentId payload) s
        = { s with hash := hashSet s.hash componentId { m with app := none } }) := by
  have hbase : ∀ (h : RegistrationHash) (componentId : String) (source : V2Source),
      (HardwareRegistrationCache.clearInfoAndRegistered h componentId source).errorOf
        = some .typeError := by
    intro h componentId source
    unfold HardwareRegistrationCache.clearInfoAndRegistered
    match hg : hashGet h componentId with
    | none => simp [CResult.errorOf]
    | some m => simp [CResult.errorOf]
  refine ⟨hbase, ?_, ?_⟩
  · intro h componentId source
    unfold HardwareRegistrationCache.clearCachedValues
    have := hbase h componentId source
    match hc : HardwareRegistrationCache.clearInfoAndRegistered h componentId source with
    | .ok _ _ => rw [hc] at this; simp [CResult.errorOf] at this
    | .err e h1 =>
      rw [hc] at this
      simp [CResult.errorOf] at this
      subst this
      match hp : HardwareRegistrationCache.clearProperties h1 componentId source with
      | .ok _ h2 => simp [hp, CResult.errorOf]
      | .err e2 h2 => simp [hp, CResult.errorOf]
  · intro s m r parse componentId payload hm hr hreg
    have hg2 : hashGet (hashSet s.hash componentId { m with app := none }) componentId
        = some { m with app := none } := hashGet_hashSet_self _ _ _
    simp [runHandler, MqttApiV2.handleAppInfo, tryCatchLog, tryCatch,
      lockRegistrationCacheAndPerformAction, HandlerM.bind_apply, HandlerM.pure_apply,
      liftCache, throwJs, emit, HardwareRegistrationCache.isRegistered,
      HardwareRegistrationCache.clearCachedValues,
      HardwareRegistrationCache.clearInfoAndRegistered,
      HardwareRegistrationCache.clearProperties,
      HardwareRegistrationCache.initCachedHardwareManifest,
      Manifest.getSrc, Manifest.setSrc, hm, hr, hreg, hg2]

/-- A manifest whose app source is marked registered (C9 witness data). -/
def c9Manifest : Manifest := { app := some { isRegistered := some true } }

/-- A dispatcher state holding `c9Manifest` (C9 witness data). -/
def c9State : DispatchState := { hash := [("c1", c9Manifest)] }

theorem clearInfoAndRegistered_always_rejects_witness :
    (HardwareRegistrationCache.clearInfoAndRegistered [] "c1" V2Source.app).errorOf
        = some .typeError ∧
    (HardwareRegistrationCache.clearCachedValues [] "c1" V2Source.app).errorOf
        = some .typeError ∧
    runHandler
        (MqttApiV2.handleAppInfo (fun _ => .error (.jsError "bad payload")) "c1" []) c9State
      = { c9State with hash := hashSet c9State.hash "c1" { c9Manifest with app := none } } :=
  ⟨clearInfoAndRegistered_always_rejects.1 [] "c1" .app,
   clearInfoAndRegistered_always_rejects.2.1 [] "c1" .app,
   clearInfoAndRegistered_always_rejects.2.2 c9State c9Manifest
     { isRegistered := some true } (fun _ => .error (.jsError "bad payload")) "c1" []
     rfl rfl rfl⟩

/-- C3: a `system/info` message with a zero-length payload (the will
message) makes the dispatcher emit `ONLINE{online:false}` and, under the
combined system+app lock, remove the component's entire cached state — the
whole per-component manifest (api version, both infos, properties and
registration flags) is deleted, so no cached state remains for that
componentId. -/
theorem handleSystemInfo_will_message
    (parse : List Nat → Except JsError V2SystemInfo) (s : DispatchState)
    (componentId : String) (payload : List Nat) (hlen : payload.length = 0) :
    runHandler (MqttApiV2.handleSystemInfo parse componentId payload) s
      = { s with hash := hashDelete s.hash componentId,
                 events := s.events ++ [.online componentId false] } ∧
    hashGet (hashDelete s.hash componentId) componentId = none := by
  constructor
  · simp [runHandler, MqttApiV2.handleSystemInfo, hlen, tryCatchLog, tryCatch,
      lockRegistrationCacheAndPerformAction, HandlerM.bind_apply, HandlerM.pure_apply,
      liftCache, emit, HardwareRegistrationCache.clearAllCacheForComponentId]
  · exact hashGet_hashDelete_self _ _

theorem handleSystemInfo_will_message_witness :
    runHandler (MqttApiV2.handleSystemInfo (fun _ => .error (.jsError "empty")) "c1" []) c9State
      = { c9State with hash := hashDelete c9State.hash "c1",
                       events := c9State.events ++ [.online "c1" false] } ∧
    hashGet (hashDelete c9State.hash "c1") "c1" = none :=
  handleSystemInfo_will_message (fun _ => .error (.jsError "empty")) c9State "c1" [] rfl

/-- A property registration used by the C2 scenario. -/
def c2Reg : V2PropertyRegistration :=
  { path := "p", index := 0, type := .gmbnd_primitive, format := "B", length := 1,
    settable := true, gettable := true }

/-- A component whose system source holds `num_props = 1`, one cached
property, and `isRegistered = false` (C2 scenario data). -/
def c2Manifest : Manifest :=
  { system := some { info := some (.sys { api_ver := 2, num_props := 1 }),
                     properties := [("p", c2Reg)], isRegistered := some false } }

/-- The C2 scenario state. -/
def c2State : DispatchState := { hash := [("c2", c2Manifest)] }

/-- C2, counterexample: with the system source unregistered, `num_props =
1` and exactly one cached property, the fired completion-check leaves the
state untouched — the registered flag stays `false` and no `REGISTERED`
event (in particular none with `registered:true`) is emitted, contradicting
the claim that on equality the flag is set and `REGISTERED{registered:true}`
fires. -/
theorem handleRegistrationTimeout_equal_counts_silent :
    runHandler (MqttApiV2.handleRegistrationTimeout "c2" .system) c2State = c2State ∧
    (runHandler (MqttApiV2.handleRegistrationTimeout "c2" .system) c2State).events = [] ∧
    (((hashGet (runHandler (MqttApiV2.handleRegistrationTimeout "c2" .system) c2State).hash
        "c2").bind Manifest.system).bind SourceRec.isRegistered) = some false := by
  refine ⟨?_, ?_, ?_⟩ <;> rfl

/-- C2, amended: when the ≈3-second completion-check fires for a
`(componentId, source)` with cached manifest, source record and info,
under that source's lock: if the source is already registered it is a
no-op; if it is not and the info's `num_props` differs from the number of
cached properties, a `REGISTERED` event with `registered:false` is
emitted and nothing else changes; if the counts are equal the handler
changes nothing and emits nothing (the positive completion event is
emitted eagerly by the message handlers, not by the timer). -/
theorem handleRegistrationTimeout_spec (s : DispatchState) (componentId : String)
    (source : V2Source) (m : Manifest) (r : SourceRec) (info : SrcInfo)
    (hm : hashGet s.hash componentId = some m)
    (hr : m.getSrc source = some r)
    (hi : r.info = some info) :
    (r.isRegistered = some true →
      runHandler (MqttApiV2.handleRegistrationTimeout componentId source) s = s) ∧
    (r.isRegistered ≠ some true → info.num_props ≠ r.properties.length →
      runHandler (MqttApiV2.handleRegistrationTimeout componentId source) s
        = { s with events := s.events ++ [.registered componentId source false] }) ∧
    (r.isRegistered ≠ some true → info.num_props = r.properties.length →
      runHandler (MqttApiV2.handleRegistrationTimeout componentId source) s = s) := by
  refine ⟨?_, ?_, ?_⟩
  · intro hreg
    cases source <;>
      · have hr2 := hr
        simp only [Manifest.getSrc] at hr2
        simp [runHandler, MqttApiV2.handleRegistrationTimeout, tryCatchLog, tryCatch,
          lockRegistrationCacheAndPerformAction, HandlerM.bind_apply, HandlerM.pure_apply,
          liftCache, throwJs, emit, HardwareRegistrationCache.isRegistered,
          HardwareRegistrationCache.getSystemInfo, HardwareRegistrationCache.getApplicationInfo,
          HardwareRegistrationCache.getAllProperties, Manifest.getSrc, hm, hr2, hreg]
  · intro hreg hne
    cases source <;>
      · have hr2 := hr
        simp only [Manifest.getSrc] at hr2
        simp [runHandler, MqttApiV2.handleRegistrationTimeout, tryCatchLog, tryCatch,
          lockRegistrationCacheAndPerformAction, HandlerM.bind_apply, HandlerM.pure_apply,
          liftCache, throwJs, emit, HardwareRegistrationCache.isRegistered,
          HardwareRegistrationCache.getSystemInfo, HardwareRegistrationCache.getApplicationInfo,
          HardwareRegistrationCache.getAllProperties, Manifest.getSrc, hm, hr2, hi, hreg, hne]
  · intro hreg heq
    cases source <;>
      · have hr2 := hr
        simp only [Manifest.getSrc] at hr2
        simp [runHandler, MqttApiV2.handleRegistrationTimeout, tryCatchLog, tryCatch,
          lockRegistrationCacheAndPerformAction, HandlerM.bind_apply, HandlerM.pure_apply,
          liftCache, throwJs, emit, HardwareRegistrationCache.isRegistered,
          HardwareRegistrationCache.getSystemInfo, HardwareRegistrationCache.getApplicationInfo,
          HardwareRegistrationCache.getAllProperties, Manifest.getSrc, hm, hr2, hi, hreg, heq]

theorem handleRegistrationTimeout_spec_witness :
    runHandler (MqttApiV2.handleRegistrationTimeout "c2" .system) c2State = c2State ∧
    some false ≠ some true ∧
    (SrcInfo.sys { api_ver := 2, num_props := 1 }).num_props = [("p", c2Reg)].length :=
  ⟨(handleRegistrationTimeout_spec c2State "c2" .system c2Manifest
      { info := some (.sys { api_ver := 2, num_props := 1 }),
        properties := [("p", c2Reg)], isRegistered := some false }
      (.sys { api_ver := 2, num_props := 1 }) rfl rfl rfl).2.2
    (by decide) rfl,
   by decide, rfl⟩

/-- C6, counterexample: `packPropertyValue` rewrites the `s` format with
the JavaScript string length — UTF-16 code units — not the UTF-8 byte
length. On `"é"` (one code unit, two UTF-8 bytes) the format becomes
`"1s"` and one byte is packed, where a `"2s"` rewrite (the claimed UTF-8
byte length) would pack both bytes. -/
theorem packPropertyValue_utf16_not_utf8 :
    packPropertyValue "s" [[DataType.str "é"]]
      = packRecordsConcat (toString (jsStringLength "é") ++ "s") [[DataType.str "é"]] ∧
    jsStringLength "é" = 1 ∧
    String.utf8ByteSize "é" = 2 ∧
    packPropertyValue "s" [[DataType.str "é"]] = .ok [195] ∧
    packRecordsConcat (toString (String.utf8ByteSize "é") ++ "s") [[DataType.str "é"]]
      = .ok [195, 169] := by
  refine ⟨rfl, rfl, rfl, rfl, rfl⟩

/-- C6, amended: for every call to the pack operation whose format matches
the string-format regex, if the first scalar of the first record is a
string then the format is rewritten by splicing that string's length in
UTF-16 code units (JavaScript `String.prototype.length`, equal to the
UTF-8 byte length only for strings where the two coincide, e.g. ASCII)
before the first `s` — for the format `"s"` this yields `"<len>s"` — and
only that string is packed with the rewritten format; if the first scalar
is absent or not a string the operation fails with a `TypeError`. -/
theorem packPropertyValue_string_format_spec (format : String)
    (values : List (List DataType)) (hfmt : stringFormatRegexTest format = true) :
    (∀ s0, values.head?.bind List.head? = some (.str s0) →
      packPropertyValue format values
        = packRecordsConcat (stringFormatRewrite format (jsStringLength s0))
            [[DataType.str s0]]) ∧
    ((∀ s0, values.head?.bind List.head? ≠ some (.str s0)) →
      packPropertyValue format values = .error .typeError) ∧
    (∀ n, stringFormatRewrite "s" n = toString n ++ "s") := by
  refine ⟨?_, ?_, ?_⟩
  · intro s0 h
    simp [packPropertyValue, hfmt, h]
  · intro hno
    unfold packPropertyValue
    rw [if_pos hfmt]
    match hv : values.head?.bind List.head? with
    | none => rfl
    | some (.num n) => rfl
    | some (.bool b) => rfl
    | some (.str s0) => exact absurd hv (hno s0)
  · intro n
    simp [stringFormatRewrite, List.findIdx]
    rfl

theorem packPropertyValue_string_format_spec_witness :
    stringFormatRegexTest "s" = true ∧
    packPropertyValue "s" [[DataType.str "stub-string"]]
      = packRecordsConcat (stringFormatRewrite "s" (jsStringLength "stub-string"))
          [[DataType.str "stub-string"]] :=
  ⟨rfl, (packPropertyValue_string_format_spec "s" [[DataType.str "stub-string"]] rfl).1
    "stub-string" rfl⟩

/-- Pending messages of the C8 scenario. -/
def c8m1 : PendingMessage := { topic := "app/prop/pub/:/x", payload := [1] }

/-- Second pending message of the C8 scenario. -/
def c8m2 : PendingMessage := { topic := "app/prop/pub/:/y", payload := [2] }

/-- C8, counterexample: when the 3-second budget is exceeded (the timeout
flag observed already set at the first iteration), the drain of a
two-message queue logs the timeout and stops — but only the message
already dequeued by `getNextPendingMessage` is lost; the second message is
still in the component's pending queue, which is therefore not emptied,
contradicting the claim that the messages still pending are removed from
the queue. -/
theorem handlePendingMessages_timeout_leaves_queue :
    (handlePendingMessages (fun _ => true) [c8m1, c8m2]).timedOutLogged = true ∧
    (handlePendingMessages (fun _ => true) [c8m1, c8m2]).handled = [] ∧
    (handlePendingMessages (fun _ => true) [c8m1, c8m2]).queue = [c8m2] ∧
    (handlePendingMessages (fun _ => true) [c8m1, c8m2]).queue ≠ [] := by
  refine ⟨rfl, rfl, rfl, by simp [handlePendingMessages, handlePendingMessagesGo, c8m1, c8m2]⟩

theorem handlePendingMessagesGo_spec (flagAt : Nat → Bool) :
    ∀ (q : List PendingMessage) (i j : Nat), flagAt (i + j) = true →
    (∀ t, t < j → flagAt (i + t) = false) → (hlen : j < q.length) →
    handlePendingMessagesGo flagAt i q
      = { handled := q.take j, dropped := some (q.get ⟨j, hlen⟩),
          queue := q.drop (j + 1), timedOutLogged := true } := by
  intro q
  induction q with
  | nil => intro i j _ _ hlen; simp at hlen
  | cons m rest ih =>
    intro i j hj hbefore hlen
    match j with
    | 0 =>
      simp only [Nat.add_zero] at hj
      simp [handlePendingMessagesGo, hj]
    | j' + 1 =>
      have h0 : flagAt i = false := by
        have := hbefore 0 (Nat.succ_pos j')
        simpa using this
      have hj2 : flagAt (i + 1 + j') = true := by
        rw [show i + 1 + j' = i + (j' + 1) by omega]
        exact hj
      have hbefore2 : ∀ t, t < j' → flagAt (i + 1 + t) = false := by
        intro t ht
        rw [show i + 1 + t = i + (t + 1) by omega]
        exact hbefore (t + 1) (by omega)
      have hlen2 : j' < rest.length := by simpa using hlen
      simp [handlePendingMessagesGo, h0, ih (i + 1) j' hj2 hbefore2 hlen2]

/-- C8, amended: when the drain's 3-second wall-clock budget is exceeded —
the timeout flag is first observed set at iteration `j`, with messages
still pending — the loop stops and the timeout is logged; the messages of
the earlier iterations were handled, the message dequeued at iteration `j`
is dropped (removed from the queue but never handled), and the messages
after it remain in the component's pending queue (they are not removed). -/
theorem handlePendingMessages_timeout_spec (flagAt : Nat → Bool)
    (q : List PendingMessage) (j : Nat) (hj : flagAt j = true)
    (hbefore : ∀ t, t < j → flagAt t = false) (hlen : j < q.length) :
    handlePendingMessages flagAt q
      = { handled := q.take j, dropped := some (q.get ⟨j, hlen⟩),
          queue := q.drop (j + 1), timedOutLogged := true } := by
  unfold handlePendingMessages
  exact handlePendingMessagesGo_spec flagAt q 0 j (by simpa using hj)
    (fun t ht => by simpa using hbefore t ht) hlen

theorem handlePendingMessages_timeout_spec_witness :
    handlePendingMessages (fun i => decide (1 ≤ i)) [c8m1, c8m2]
      = { handled := [c8m1], dropped := some c8m2, queue := [], timedOutLogged := true } :=
  handlePendingMessages_timeout_spec (fun i => decide (1 ≤ i)) [c8m1, c8m2] 1
    (by decide) (fun t ht => by interval_cases t <;> decide) (by decide)

/-- The settable test registration of the C7 scenario (from
`utils/property.test.ts`). -/
def c7Reg : V2PropertyRegistration :=
  { path := "group/prop", index := 1, type := .gmbnd_primitive, format := "i", length := 3,
    settable := true, gettable := true }

/-- C7: `setPropertyValue` raises `PropertyInvalidError` when the
registration or the cached api version is absent, raises
`PropertyAccessError` when the registration is not settable, and otherwise
packs the values with the registration's format and publishes the bytes to
`"<componentId>/<source>/prop/set/<path>"`. -/
theorem setPropertyValue_spec (regOpt : Option V2PropertyRegistration)
    (apiOpt : Option Nat) (componentId : String) (source : V2Source)
    (propertyPath : String) (values : List (List DataType)) :
    ((regOpt = none ∨ apiOpt = none) →
      setPropertyValue regOpt apiOpt componentId source propertyPath values
        = .error .propertyInvalid) ∧
    (∀ reg, regOpt = some reg → apiOpt.isSome → reg.settable ≠ true →
      setPropertyValue regOpt apiOpt componentId source propertyPath values
        = .error .propertyAccess) ∧
    (∀ reg bytes, regOpt = some reg → apiOpt = some 2 → reg.settable = true →
      reg.path = propertyPath → packPropertyValue reg.format values = .ok bytes →
      setPropertyValue regOpt apiOpt componentId source propertyPath values
        = .ok (V2PropSetEndpoint componentId propertyPath source, bytes)) := by
  refine ⟨?_, ?_, ?_⟩
  · rintro (rfl | rfl)
    · rfl
    · cases regOpt <;> rfl
  · rintro reg rfl hapi hset
    cases apiOpt with
    | none => simp at hapi
    | some v => simp [setPropertyValue, hset]
  · rintro reg bytes rfl rfl hset hpath hpack
    simp [setPropertyValue, hset, v2ParserSetPropertyValue, hpack, hpath]

theorem setPropertyValue_spec_witness :
    setPropertyValue none (some 2) "123" .app "group/prop" [] = .error .propertyInvalid ∧
    setPropertyValue (some { c7Reg with settable := false }) (some 2) "123" .app
        "group/prop" [] = .error .propertyAccess ∧
    setPropertyValue (some c7Reg) (some 2) "123" .app "group/prop"
        [[DataType.num 1], [DataType.num 2], [DataType.num 3]]
      = .ok ("123/app/prop/set/group/prop",
          [0, 0, 0, 1, 0, 0, 0, 2, 0, 0, 0, 3]) :=
  ⟨(setPropertyValue_spec none (some 2) "123" .app "group/prop" []).1 (Or.inl rfl),
   (setPropertyValue_spec (some { c7Reg with settable := false }) (some 2) "123" .app
      "group/prop" []).2.1 _ rfl (by decide) (by decide),
   (setPropertyValue_spec (some c7Reg) (some 2) "123" .app "group/prop"
      [[DataType.num 1], [DataType.num 2], [DataType.num 3]]).2.2 c7Reg
      [0, 0, 0, 1, 0, 0, 0, 2, 0, 0, 0, 3] rfl rfl rfl rfl rfl⟩

/-- The string-format registration of the C5 scenario: length 2. -/
def c5Reg : V2PropertyRegistration :=
  { path := "", index := 0, type := .gmbnd_primitive, format := "s", length := 2,
    settable := true, gettable := true }

/-- C5, counterexample: for a `gmbnd_primitive` registration with format
`"s"` and `length = 2`, the 4-byte payload `"abcd"` unpacks to TWO
records, `[["ab"], ["cd"]]`, not to a single record with one string of
`min(length, payload bytes) = 2` bytes. -/
theorem parsePropertyValue_string_chunks_counterexample :
    parsePropertyValue [97, 98, 99, 100] c5Reg
      = .ok [[DataType.str "ab"], [DataType.str "cd"]] ∧
    ([[DataType.str "ab"], [DataType.str "cd"]] : List (List DataType)).length ≠ 1 :=
  ⟨rfl, by decide⟩

/-- C5, amended: for a `gmbnd_primitive` registration whose format is an
optional run of decimal digits followed by `s`: an empty payload produces
`[[""]]`; a `length`-0 registration produces no records; and otherwise
the parser prefixes the decimal rendering of `m = min(length, payload
bytes)` to the format string, so the struct item size becomes the digit
concatenation `C = m * 10 ^ k + j` (the format's `k` digit characters
having value `j`; `C = m` for the plain `"s"` format) and the payload is
cut into consecutive `C`-byte strings, one record each, keeping
`min(length, ⌊payload bytes / C⌋)` records and discarding any ragged
tail — one record of the whole payload only for the plain `"s"` format
with `length ≥ payload bytes`, and typically zero records for a
digit-prefixed format such as `"2s"`. -/
theorem parsePropertyValue_string_spec (reg : V2PropertyRegistration)
    (payload : List Nat) (ds : List Char)
    (htype : reg.type = .gmbnd_primitive)
    (hfmt : reg.format.data = ds ++ ['s'])
    (hdig : ∀ d ∈ ds, d.isDigit = true) :
    (payload.length = 0 → parsePropertyValue payload reg = .ok [[DataType.str ""]]) ∧
    (reg.length = 0 → payload.length ≠ 0 → parsePropertyValue payload reg = .ok []) ∧
    (0 < reg.length → 0 < payload.length →
      parsePropertyValue payload reg
        = .ok ((chunksOf
            (min reg.length payload.length * 10 ^ ds.length +
              ds.foldl (fun a d => 10 * a + (d.toNat - 48)) 0)
            (min reg.length (payload.length /
              (min reg.length payload.length * 10 ^ ds.length +
                ds.foldl (fun a d => 10 * a + (d.toNat - 48)) 0)))
            payload).map (fun c => [DataType.str (stringFromBytes c)]))) := by
  have hcont : containsChar reg.format 's' = true := by
    unfold containsChar
    rw [hfmt]
    exact contains_append_s ds
  refine ⟨?_, ?_, ?_⟩
  · intro hP
    simp [parsePropertyValue, htype, hcont, hP]
  · intro hL hP
    have hne : payload ≠ [] := fun h => hP (by simp [h])
    have hmin : min reg.length payload.length = 0 := by omega
    simp only [parsePropertyValue, htype, hcont, hmin, hL]
    simp [parseStructFormat_decimal_digits_s 0 ds hdig reg.format hfmt,
      parsePropertyValueLoop, hne]
  · intro hL hP
    have hm0 : 0 < min reg.length payload.length := by omega
    generalize hC : min reg.length payload.length * 10 ^ ds.length +
        ds.foldl (fun a d => 10 * a + (d.toNat - 48)) 0 = C
    have hC0 : 0 < C := by
      rw [← hC]
      have h10 : 1 ≤ 10 ^ ds.length := Nat.one_le_pow _ _ (by norm_num)
      have hmul : min reg.length payload.length * 1 ≤
          min reg.length payload.length * 10 ^ ds.length :=
        Nat.mul_le_mul_left _ h10
      rw [Nat.mul_one] at hmul
      omega
    have hqm : payload.length / C * C ≤ payload.length := Nat.div_mul_le_self _ _
    have hflat := chunksOf_flatten C (payload.length / C) payload hqm
    have htail : (payload.drop (payload.length / C * C)).length < C := by
      simp only [List.length_drop]
      have hdm := Nat.div_add_mod' payload.length C
      have hmod := Nat.mod_lt payload.length hC0
      omega
    have hchl := chunksOf_length C (payload.length / C) payload hqm
    have hfa : List.Forall₂ (fun c record =>
        c.length = C ∧
        (∀ rest, unpackItems false [(C, StructCode.s)]
          (c ++ rest) = .ok (record, rest)) ∧
        validatePropertyValueBoundaries record reg = .ok record)
        (chunksOf C (payload.length / C) payload)
        ((chunksOf C (payload.length / C) payload).map
            (fun c => [DataType.str (stringFromBytes c)])) := by
      rw [List.forall₂_map_right_iff, List.forall₂_same]
      intro c hc
      have hcl : c.length = C := hchl c hc
      refine ⟨hcl, ?_, ?_⟩
      · intro rest
        have htake : (c ++ rest).take C = c := by
          rw [← hcl, List.take_left]
        have hdrop : (c ++ rest).drop C = rest := by
          rw [← hcl, List.drop_left]
        have hcond : C ≤ c.length + rest.length := by omega
        simp [unpackItems, unpackGroup, StructCode.isIntCode, hcond, htake, hdrop]
      · simp [validatePropertyValueBoundaries, htype, validatePrimitiveLoop,
          checkScalarBounds]
    have hloop := parsePropertyValueLoop_spec reg
      ⟨false, [(C, StructCode.s)]⟩ C
      (chunksOf C (payload.length / C) payload)
      ((chunksOf C (payload.length / C) payload).map
          (fun c => [DataType.str (stringFromBytes c)]))
      [] (payload.drop (payload.length / C * C)) reg.length hfa htail
    simp only [List.nil_append, List.length_nil] at hloop
    rw [hflat] at hloop
    have hsz : structSizeOfItems [(C, StructCode.s)] = C := by
      simp [structSizeOfItems, StructCode.size]
    simp only [parsePropertyValue, htype]
    rw [if_pos (by simp [htype, hcont]), if_neg (by omega)]
    rw [parseStructFormat_decimal_digits_s (min reg.length payload.length) ds hdig
      reg.format hfmt, hC]
    simp only [hsz]
    rw [hloop]
    rw [← List.map_take, chunksOf_take]

/-- The digit-prefixed string-format registration of the C5 witness. -/
def c5Reg2 : V2PropertyRegistration :=
  { path := "", index := 0, type := .gmbnd_primitive, format := "2s", length := 3,
    settable := true, gettable := true }

theorem parsePropertyValue_string_spec_witness :
    c5Reg2.type = .gmbnd_primitive ∧
    c5Reg2.format.data = ['2'] ++ ['s'] ∧
    (∀ d ∈ (['2'] : List Char), d.isDigit = true) ∧
    0 < c5Reg2.length ∧
    0 < ([97, 98, 99, 100, 101, 102, 103, 104, 105, 106] : List Nat).length ∧
    parsePropertyValue [97, 98, 99, 100, 101, 102, 103, 104, 105, 106] c5Reg2
      = .ok ((chunksOf
          (min c5Reg2.length
              ([97, 98, 99, 100, 101, 102, 103, 104, 105, 106] : List Nat).length *
              10 ^ (['2'] : List Char).length +
            (['2'] : List Char).foldl (fun a d => 10 * a + (d.toNat - 48)) 0)
          (min c5Reg2.length
            (([97, 98, 99, 100, 101, 102, 103, 104, 105, 106] : List Nat).length /
              (min c5Reg2.length
                  ([97, 98, 99, 100, 101, 102, 103, 104, 105, 106] : List Nat).length *
                  10 ^ (['2'] : List Char).length +
                (['2'] : List Char).foldl (fun a d => 10 * a + (d.toNat - 48)) 0)))
          [97, 98, 99, 100, 101, 102, 103, 104, 105, 106]).map
            (fun c => [DataType.str (stringFromBytes c)])) ∧
    parsePropertyValue [97, 98, 99, 100, 101, 102, 103, 104, 105, 106] c5Reg2
      = .ok [] :=
  ⟨rfl, rfl, by decide, by decide, by decide,
   (parsePropertyValue_string_spec c5Reg2
      [97, 98, 99, 100, 101, 102, 103, 104, 105, 106] ['2'] rfl rfl (by decide)).2.2
      (by decide) (by decide),
   rfl⟩

/-- A list of characters without `'s'` fails the all-`'s'` test unless it
is empty. -/
theorem all_s_false_of_not_contains : ∀ (l : List Char),
    l.contains 's' = false → (!l.isEmpty && l.all (fun ch => ch = 's')) = false := by
  intro l hc
  match l with
  | [] => simp
  | x :: r =>
    have hx : ¬ (x = 's') := by
      intro he
      subst he
      simp [List.contains_cons] at hc
    simp [List.all_cons, hx]

/-- A format without `'s'` does not match `PROPERTY_FORMAT_STRING_REGEX`. -/
theorem stringFormatRegexTest_false_of_no_s (format : String)
    (h : containsChar format 's' = false) : stringFormatRegexTest format = false := by
  unfold stringFormatRegexTest
  unfold containsChar at h
  cases hcs : format.data with
  | nil => simp
  | cons m r =>
    rw [hcs] at h
    simp only []
    split
    · apply all_s_false_of_not_contains
      simp only [List.contains_cons, Bool.or_eq_false_iff] at h
      exact h.2
    · exact all_s_false_of_not_contains (m :: r) h

/-- Push a pointwise fact about the right list into a `Forall₂`. -/
theorem forall₂_strengthen {α β : Type} {R : α → β → Prop} {Q : β → Prop} :
    ∀ {l₁ : List α} {l₂ : List β}, List.Forall₂ R l₁ l₂ → (∀ b ∈ l₂, Q b) →
      List.Forall₂ (fun a b => R a b ∧ Q b) l₁ l₂ := by
  intro l₁ l₂ hfa hq
  induction hfa with
  | nil => exact .nil
  | cons h t ih =>
    exact .cons ⟨h, hq _ (List.mem_cons_self _ _)⟩
      (ih (fun x hx => hq x (List.mem_cons_of_mem _ hx)))

/-- A successful `Buffer.concat(values.map((v) => struct.pack(format, v)))`
over an integer-only format splits into per-record chunks, each of the
format's size and each unpacking back to its record. -/
theorem packRecordsConcat_ok (format : String) (d : StructFormat)
    (hfmt : parseStructFormat format = some d)
    (hint : ∀ it ∈ d.items, it.2.isIntCode = true) :
    ∀ (values : List (List DataType)) (buf : List Nat),
    packRecordsConcat format values = .ok buf →
    ∃ chunks : List (List Nat), buf = chunks.flatten ∧
      List.Forall₂ (fun c record => c.length = structSizeOfItems d.items ∧
        ∀ rest, unpackItems d.littleEndian d.items (c ++ rest) = .ok (record, rest))
        chunks values := by
  intro values
  induction values with
  | nil =>
    intro buf h
    simp only [packRecordsConcat, Except.ok.injEq] at h
    subst h
    exact ⟨[], by simp, .nil⟩
  | cons record rest ih =>
    intro buf h
    simp only [packRecordsConcat, structPack, hfmt] at h
    split at h
    · simp at h
    · next bs hbs =>
      split at h
      · simp at h
      · next tail2 htail2 =>
        simp only [Except.ok.injEq] at h
        subst h
        obtain ⟨hlen, hun⟩ := packItems_spec d.littleEndian d.items record bs hint hbs
        obtain ⟨chunks, hflat, hfa⟩ := ih tail2 htail2
        exact ⟨bs :: chunks, by simp [hflat], .cons ⟨hlen, hun⟩ hfa⟩

/-- The float32-format registration of the C4 counterexample. -/
def c4Reg : V2PropertyRegistration :=
  { path := "", index := 0, type := .gmbnd_primitive, format := "f", length := 1,
    settable := true, gettable := true }

/-- C4, counterexample: the float32 code `f` is a numeric struct-pack code
(spec §3: "fixed-width signed or unsigned integers or floats"), yet the
round-trip fails on it — the in-bounds value `2^24 + 1 = 16777217` (no
declared `min`/`max`, so the bounds validation passes) packs under `"f"`
to the IEEE-754 float32 bytes of `16777216.0` (`4B 80 00 00`, rounding to
nearest ties-to-even losing the low bit), and unpacking those bytes yields
`16777216`, not the original value. -/
theorem parse_pack_float_not_roundtrip :
    validatePropertyValueBoundaries [DataType.num 16777217] c4Reg
      = .ok [DataType.num 16777217] ∧
    packPropertyValue c4Reg.format [[DataType.num 16777217]]
      = .ok [75, 128, 0, 0] ∧
    parsePropertyValue [75, 128, 0, 0] c4Reg = .ok [[DataType.num 16777216]] ∧
    (16777216 : Int) ≠ 16777217 :=
  ⟨rfl, rfl, rfl, by decide⟩

/-- The integer-format registration of the C4 witness. -/
def c4iReg : V2PropertyRegistration :=
  { path := "", index := 0, type := .gmbnd_primitive, format := "i", length := 3,
    settable := true, gettable := true }

/-- C4, amended: for a registration whose format is a fixed-width integer
struct-pack format — it contains no `'s'`, parses, and every group is an
integer code of positive total size — and a list of records each passing
the registration's bounds validation, unpacking the buffer obtained by
packing those records with the registration's format restores the
records, truncated at `registration.length`; the float codes are excluded
because the float32 rounding refutes the round-trip there. -/
theorem parse_pack_roundtrip (reg : V2PropertyRegistration)
    (values : List (List DataType)) (buf : List Nat) (d : StructFormat)
    (hnos : containsChar reg.format 's' = false)
    (hfmt : parseStructFormat reg.format = some d)
    (hint : ∀ it ∈ d.items, it.2.isIntCode = true)
    (hsize : 0 < structSizeOfItems d.items)
    (hval : ∀ record ∈ values, validatePropertyValueBoundaries record reg = .ok record)
    (hpack : packPropertyValue reg.format values = .ok buf) :
    parsePropertyValue buf reg = .ok (values.take reg.length) := by
  have hregex : stringFormatRegexTest reg.format = false :=
    stringFormatRegexTest_false_of_no_s reg.format hnos
  simp only [packPropertyValue, hregex, Bool.false_eq_true, if_false] at hpack
  obtain ⟨chunks, hflat, hfa0⟩ :=
    packRecordsConcat_ok reg.format d hfmt hint values buf hpack
  have hfa := List.Forall₂.imp
    (fun a b h => And.intro h.1.1 (And.intro h.1.2 h.2))
    (forall₂_strengthen hfa0 hval)
  have hloop := parsePropertyValueLoop_spec reg d (structSizeOfItems d.items)
    chunks values [] [] reg.length hfa (by simpa using hsize)
  simp only [List.nil_append, List.append_nil, List.length_nil] at hloop
  rw [← hflat] at hloop
  simp [parsePropertyValue, hnos, hfmt, hloop]

theorem parse_pack_roundtrip_witness :
    containsChar c4iReg.format 's' = false ∧
    parseStructFormat c4iReg.format
      = some { littleEndian := false, items := [(1, StructCode.i)] } ∧
    (∀ it ∈ [((1 : Nat), StructCode.i)], it.2.isIntCode = true) ∧
    0 < structSizeOfItems [(1, StructCode.i)] ∧
    (∀ record ∈ [[DataType.num 1], [DataType.num 2]],
      validatePropertyValueBoundaries record c4iReg = .ok record) ∧
    packPropertyValue c4iReg.format [[DataType.num 1], [DataType.num 2]]
      = .ok [0, 0, 0, 1, 0, 0, 0, 2] ∧
    parsePropertyValue [0, 0, 0, 1, 0, 0, 0, 2] c4iReg
      = .ok ([[DataType.num 1], [DataType.num 2]].take c4iReg.length) :=
  ⟨rfl, rfl, by decide, by decide, by
    intro r hr
    fin_cases hr <;> rfl, rfl,
   parse_pack_roundtrip c4iReg [[DataType.num 1], [DataType.num 2]]
     [0, 0, 0, 1, 0, 0, 0, 2]
     { littleEndian := false, items := [(1, StructCode.i)] }
     rfl rfl (by decide) (by decide)
     (by intro r hr; fin_cases hr <;> rfl) rfl⟩

/-- The per-source cache invariant of the registration flow: the property
map has pairwise-distinct keys, every record is stored under its own
`path`, and the records' `index` values are pairwise distinct (so in
particular the stored records' `path` values are pairwise distinct). -/
def propsInv (props : List (String × V2PropertyRegistration)) : Prop :=
  (props.map Prod.fst).Nodup ∧
  (∀ p ∈ props, p.2.path = p.1) ∧
  (props.map (fun p => p.2.index)).Nodup

theorem propsInv_nil : propsInv [] := ⟨List.nodup_nil, by simp, List.nodup_nil⟩

theorem propsInv_single (v : V2PropertyRegistration) : propsInv [(v.path, v)] := by
  refine ⟨by simp, ?_, by simp⟩
  intro p hp
  simp only [List.mem_singleton] at hp
  rw [hp]

theorem alistReplace_map_fst {β : Type} (k : String) (v : β) :
    ∀ l : List (String × β), (alistReplace l k v).map Prod.fst = l.map Prod.fst := by
  intro l
  induction l with
  | nil => rfl
  | cons p t ih =>
    rcases p with ⟨pk, pv⟩
    by_cases hp : pk = k
    · simp only [alistReplace, if_pos hp, List.map_cons, ih]
      rw [hp]
    · simp only [alistReplace, if_neg hp, List.map_cons, ih]

theorem alistReplace_mem {β : Type} (k : String) (v : β) :
    ∀ (l : List (String × β)) (p : String × β), p ∈ alistReplace l k v →
      p = (k, v) ∨ p ∈ l := by
  intro l
  induction l with
  | nil => intro p hp; simp [alistReplace] at hp
  | cons q t ih =>
    rcases q with ⟨qk, qv⟩
    intro p hp
    by_cases hq : qk = k
    · simp only [alistReplace, if_pos hq, List.mem_cons] at hp
      rcases hp with h | h
      · exact Or.inl h
      · rcases ih p h with h2 | h2
        · exact Or.inl h2
        · exact Or.inr (List.mem_cons_of_mem _ h2)
    · simp only [alistReplace, if_neg hq, List.mem_cons] at hp
      rcases hp with h | h
      · exact Or.inr (by rw [h]; exact List.mem_cons_self _ _)
      · rcases ih p h with h2 | h2
        · exact Or.inl h2
        · exact Or.inr (List.mem_cons_of_mem _ h2)

theorem alistReplace_map_index (k : String) (v : V2PropertyRegistration) :
    ∀ l : List (String × V2PropertyRegistration),
    (∀ p ∈ l, p.1 = k → p.2.index = v.index) →
    (alistReplace l k v).map (fun p => p.2.index) = l.map (fun p => p.2.index) := by
  intro l
  induction l with
  | nil => intro _; rfl
  | cons p t ih =>
    rcases p with ⟨pk, pv⟩
    intro hall
    by_cases hp : pk = k
    · simp only [alistReplace, if_pos hp, List.map_cons]
      rw [ih (fun q hq hqk => hall q (List.mem_cons_of_mem _ hq) hqk)]
      have hpvi : pv.index = v.index := hall (pk, pv) (List.mem_cons_self _ _) hp
      rw [hpvi]
    · simp only [alistReplace, if_neg hp, List.map_cons]
      rw [ih (fun q hq hqk => hall q (List.mem_cons_of_mem _ hq) hqk)]

theorem alistLookup_none_not_mem {β : Type} (k : String) :
    ∀ l : List (String × β), alistLookup l k = none → k ∉ l.map Prod.fst := by
  intro l
  induction l with
  | nil => intro _; simp
  | cons p t ih =>
    rcases p with ⟨pk, pv⟩
    intro h
    simp only [alistLookup] at h
    by_cases hk : k = pk
    · rw [if_pos hk] at h; simp at h
    · rw [if_neg hk] at h
      simp only [List.map_cons, List.mem_cons]
      rintro (he | he)
      · exact hk he
      · exact ih h he

/-- A non-conflicting record agrees in `path` exactly where it agrees in
`index` with every cached record. -/
theorem MqttApiV2.conflictsWith_false_spec (props : List (String × V2PropertyRegistration))
    (prop : V2PropertyRegistration)
    (hnc : MqttApiV2.conflictsWith (props.map Prod.snd) prop = false) :
    ∀ q ∈ props, (q.2.index = prop.index → q.2.path = prop.path) ∧
      (q.2.path = prop.path → q.2.index = prop.index) := by
  intro q hq
  constructor
  · intro hidx
    by_contra hpath
    have ht : MqttApiV2.conflictsWith (props.map Prod.snd) prop = true := by
      rw [MqttApiV2.conflictsWith, List.any_eq_true]
      refine ⟨q.2, List.mem_map_of_mem _ hq, ?_⟩
      simp [hidx, hpath]
    rw [ht] at hnc
    exact absurd hnc (by decide)
  · intro hpath
    by_contra hidx
    have ht : MqttApiV2.conflictsWith (props.map Prod.snd) prop = true := by
      rw [MqttApiV2.conflictsWith, List.any_eq_true]
      refine ⟨q.2, List.mem_map_of_mem _ hq, ?_⟩
      simp [hidx, hpath]
    rw [ht] at hnc
    exact absurd hnc (by decide)

/-- Caching a non-conflicting record under its path preserves the
per-source invariant. -/
theorem propsInv_propsSet (props : List (String × V2PropertyRegistration))
    (prop : V2PropertyRegistration) (hinv : propsInv props)
    (hnc : MqttApiV2.conflictsWith (props.map Prod.snd) prop = false) :
    propsInv (propsSet props prop.path prop) := by
  obtain ⟨hkeys, hpath, hidx⟩ := hinv
  have hspec := MqttApiV2.conflictsWith_false_spec props prop hnc
  unfold propsSet alistSet
  split
  · refine ⟨?_, ?_, ?_⟩
    · rw [alistReplace_map_fst]; exact hkeys
    · intro p hp
      rcases alistReplace_mem prop.path prop props p hp with h | h
      · rw [h]
      · exact hpath p h
    · rw [alistReplace_map_index]
      · exact hidx
      · intro p hp hkey
        exact (hspec p hp).2 ((hpath p hp).trans hkey)
  · next hnone2 =>
    have hnone : alistLookup props prop.path = none := by
      cases hx : alistLookup props prop.path with
      | none => rfl
      | some _ => rw [hx] at hnone2; simp at hnone2
    have hknotin : prop.path ∉ props.map Prod.fst :=
      alistLookup_none_not_mem _ props hnone
    refine ⟨?_, ?_, ?_⟩
    · rw [List.map_append]
      show (props.map Prod.fst ++ [prop.path]).Nodup
      refine List.Nodup.append hkeys (List.nodup_singleton _) ?_
      intro a ha hb
      simp only [List.mem_singleton] at hb
      subst hb
      exact hknotin ha
    · intro p hp
      rcases List.mem_append.mp hp with h | h
      · exact hpath p h
      · simp only [List.mem_singleton] at h
        rw [h]
    · rw [List.map_append]
      show (props.map (fun p => p.2.index) ++ [prop.index]).Nodup
      refine List.Nodup.append hidx (List.nodup_singleton _) ?_
      intro a ha hb
      simp only [List.mem_singleton] at hb
      subst hb
      rcases List.mem_map.mp ha with ⟨q, hq, hqi⟩
      have hqpath : q.2.path = prop.path := (hspec q hq).1 hqi
      exact hknotin (List.mem_map.mpr ⟨q, hq, (hpath q hq).symm.trans hqpath ▸ rfl⟩)

theorem Manifest.getSrc_setSrc_self (m : Manifest) (src : V2Source) (r : Option SourceRec) :
    (m.setSrc src r).getSrc src = r := by
  cases src <;> rfl

theorem Manifest.getSrc_setSrc_ne (m : Manifest) (src src2 : V2Source) (r : Option SourceRec)
    (h : src2 ≠ src) : (m.setSrc src r).getSrc src2 = m.getSrc src2 := by
  cases src <;> cases src2 <;> first | rfl | exact absurd rfl h

/-- The registration hash as left by a cache operation, whether it
resolved or rejected. -/
def CResult.hashOf {α : Type} : CResult α → RegistrationHash
  | .ok _ h => h
  | .err _ h => h

theorem isRegistered_hashOf (h : RegistrationHash) (cid : String) (src : V2Source) :
    (HardwareRegistrationCache.isRegistered h cid src).hashOf = h := by
  unfold HardwareRegistrationCache.isRegistered
  split
  · rfl
  · split <;> rfl

theorem getAllProperties_hashOf (h : RegistrationHash) (cid : String) (src : V2Source) :
    (HardwareRegistrationCache.getAllProperties h cid src).hashOf = h := by
  unfold HardwareRegistrationCache.getAllProperties
  split
  · rfl
  · split <;> rfl

theorem getApplicationInfo_hashOf (h : RegistrationHash) (cid : String) :
    (HardwareRegistrationCache.getApplicationInfo h cid).hashOf = h := by
  unfold HardwareRegistrationCache.getApplicationInfo
  split
  · rfl
  · split <;> rfl

/-- Every property map stored anywhere in the hash satisfies the
per-source invariant. -/
def hashPropsInv (h : RegistrationHash) : Prop :=
  ∀ cid m, hashGet h cid = some m →
    ∀ src r, m.getSrc src = some r → propsInv r.properties

theorem hashPropsInv_hashSet (h : RegistrationHash) (cid : String) (m : Manifest)
    (hinv : hashPropsInv h)
    (hm : ∀ src r, m.getSrc src = some r → propsInv r.properties) :
    hashPropsInv (hashSet h cid m) := by
  intro cid2 m2 hget src r hr
  by_cases hc : cid2 = cid
  · subst hc
    rw [hashGet_hashSet_self] at hget
    cases hget
    exact hm src r hr
  · rw [hashGet_hashSet_ne _ _ _ _ hc] at hget
    exact hinv cid2 m2 hget src r hr

theorem hashPropsInv_setSrc (h : RegistrationHash) (cid : String) (m : Manifest)
    (src : V2Source) (r2 : SourceRec)
    (hm : hashGet h cid = some m) (hinv : hashPropsInv h)
    (hr2 : propsInv r2.properties) :
    hashPropsInv (hashSet h cid (m.setSrc src (some r2))) := by
  apply hashPropsInv_hashSet _ _ _ hinv
  intro src2 r3 hr3
  by_cases hs : src2 = src
  · subst hs
    rw [Manifest.getSrc_setSrc_self] at hr3
    cases hr3
    exact hr2
  · rw [Manifest.getSrc_setSrc_ne _ _ _ _ hs] at hr3
    exact hinv cid m hm src2 r3 hr3

theorem hashPropsInv_init (h : RegistrationHash) (cid : String) (hinv : hashPropsInv h) :
    hashPropsInv (HardwareRegistrationCache.initCachedHardwareManifest h cid) := by
  unfold HardwareRegistrationCache.initCachedHardwareManifest
  split
  · exact hinv
  · apply hashPropsInv_hashSet h cid _ hinv
    intro src r hr
    cases src <;>
      · simp only [Manifest.getSrc, Option.some.injEq] at hr
        rw [← hr]
        exact propsInv_nil

theorem hashPropsInv_setRegistered (h : RegistrationHash) (cid : String) (src : V2Source)
    (b : Bool) (hinv : hashPropsInv h) :
    hashPropsInv (HardwareRegistrationCache.setRegistered h cid src b).hashOf := by
  have hinv1 := hashPropsInv_init h cid hinv
  unfold HardwareRegistrationCache.setRegistered
  simp only []
  split
  · exact hinv1
  · next m hm =>
    split
    · exact hinv1
    · next r hr =>
      simp only [CResult.hashOf]
      exact hashPropsInv_setSrc _ cid m src _ hm hinv1
        (by simpa using hinv1 cid m hm src r hr)

theorem hashPropsInv_clearProperties (h : RegistrationHash) (cid : String) (src : V2Source)
    (hinv : hashPropsInv h) :
    hashPropsInv (HardwareRegistrationCache.clearProperties h cid src).hashOf := by
  have hinv1 := hashPropsInv_init h cid hinv
  unfold HardwareRegistrationCache.clearProperties
  simp only []
  split
  · exact hinv1
  · next m hm =>
    split
    · exact hinv1
    · next r hr =>
      simp only [CResult.hashOf]
      exact hashPropsInv_setSrc _ cid m src _ hm hinv1 propsInv_nil

theorem hashPropsInv_cacheProperty (h : RegistrationHash) (cid : String) (src : V2Source)
    (prop : V2PropertyRegistration) (hinv : hashPropsInv h)
    (hnc : ∀ m r, hashGet h cid = some m → m.getSrc src = some r →
      MqttApiV2.conflictsWith (r.properties.map Prod.snd) prop = false) :
    hashPropsInv (HardwareRegistrationCache.cacheProperty h cid src prop.path prop).hashOf := by
  have hinv1 := hashPropsInv_init h cid hinv
  unfold HardwareRegistrationCache.cacheProperty
  simp only []
  cases hh : hashGet h cid with
  | some m =>
    have hini : HardwareRegistrationCache.initCachedHardwareManifest h cid = h := by
      unfold HardwareRegistrationCache.initCachedHardwareManifest
      rw [hh]
    rw [hini, hh]
    simp only []
    cases hr : m.getSrc src with
    | none => exact hinv
    | some r =>
      simp only [CResult.hashOf]
      have hprops : propsInv (propsSet r.properties prop.path prop) :=
        propsInv_propsSet r.properties prop (hinv cid m hh src r hr) (hnc m r hh hr)
      exact hashPropsInv_setSrc h cid m src _ hh hinv hprops
  | none =>
    have hini : HardwareRegistrationCache.initCachedHardwareManifest h cid =
        hashSet h cid { system := some { properties := [] }, app := some { properties := [] } } := by
      unfold HardwareRegistrationCache.initCachedHardwareManifest
      rw [hh]
    rw [hini, hashGet_hashSet_self]
    simp only []
    have hgempty : (Manifest.getSrc
        { system := some { properties := [] }, app := some { properties := [] } } src)
        = some { properties := [] } := by
      cases src <;> rfl
    rw [hgempty]
    simp only [CResult.hashOf]
    have hinit : hashPropsInv (hashSet h cid
        { system := some { properties := [] }, app := some { properties := [] } }) := by
      apply hashPropsInv_hashSet h cid _ hinv
      intro src2 r2 hr2
      cases src2 <;>
        · simp only [Manifest.getSrc, Option.some.injEq] at hr2
          rw [← hr2]
          exact propsInv_nil
    exact hashPropsInv_setSrc _ cid _ src _ (hashGet_hashSet_self _ _ _) hinit
      (by
        show propsInv (propsSet ([] : List (String × V2PropertyRegistration)) prop.path prop)
        show propsInv ([] ++ [(prop.path, prop)])
        simpa using propsInv_single prop)

theorem runHandler_tryCatchLog (x : HandlerM Unit) (s : DispatchState) :
    runHandler (tryCatchLog x) s = runHandler x s := by
  cases hx : x s <;> simp [runHandler, tryCatchLog, tryCatch, hx, HandlerM.pure_apply]

theorem hashPropsInv_completeSuccessfulRegistration (cid : String) (src : V2Source)
    (s : DispatchState) (hinv : hashPropsInv s.hash) :
    hashPropsInv (runHandler (MqttApiV2.completeSuccessfulRegistration cid src) s).hash := by
  have hpres := hashPropsInv_setRegistered s.hash cid src true hinv
  cases hq : HardwareRegistrationCache.setRegistered s.hash cid src true with
  | ok a h1 =>
    rw [hq] at hpres
    simp only [CResult.hashOf] at hpres
    simpa [runHandler, MqttApiV2.completeSuccessfulRegistration, HandlerM.bind_apply,
      tryCatch, liftCache, hq, emit, throwJs] using hpres
  | err e h1 =>
    rw [hq] at hpres
    simp only [CResult.hashOf] at hpres
    simpa [runHandler, MqttApiV2.completeSuccessfulRegistration, HandlerM.bind_apply,
      tryCatch, liftCache, hq, emit, throwJs] using hpres

theorem hashPropsInv_handlePropertyRegistrationTail (cid : String) (src : V2Source)
    (parsed : Except JsError V2PropertyRegistration) (s : DispatchState)
    (hinv : hashPropsInv s.hash) :
    hashPropsInv (runHandler (MqttApiV2.handlePropertyRegistrationTail cid src parsed) s).hash := by
  match parsed with
  | .error e =>
    simpa [runHandler, MqttApiV2.handlePropertyRegistrationTail, throwJs] using hinv
  | .ok prop =>
    simp only [MqttApiV2.handlePropertyRegistrationTail]
    cases hq1 : HardwareRegistrationCache.getAllProperties s.hash cid src with
    | err e h1 =>
      have h1e : h1 = s.hash := by
        have hh := getAllProperties_hashOf s.hash cid src
        rw [hq1] at hh
        simpa [CResult.hashOf] using hh
      subst h1e
      simpa [runHandler, HandlerM.bind_apply, tryCatch, liftCache, hq1, throwJs] using hinv
    | ok props h1 =>
      have h1e : h1 = s.hash := by
        have hh := getAllProperties_hashOf s.hash cid src
        rw [hq1] at hh
        simpa [CResult.hashOf] using hh
      subst h1e
      by_cases hconf : MqttApiV2.conflictsWith props prop = true
      · simpa [runHandler, HandlerM.bind_apply, tryCatch, liftCache, hq1, hconf,
          HandlerM.pure_apply] using hinv
      · have hconf' : MqttApiV2.conflictsWith props prop = false :=
          Bool.eq_false_iff.mpr hconf
        have hnc : ∀ m r, hashGet s.hash cid = some m → m.getSrc src = some r →
            MqttApiV2.conflictsWith (r.properties.map Prod.snd) prop = false := by
          intro m r hm hr
          have hq1' := hq1
          simp only [HardwareRegistrationCache.getAllProperties, hm, hr,
            CResult.ok.injEq] at hq1'
          rw [hq1'.1]
          exact hconf'
        have hpres := hashPropsInv_cacheProperty s.hash cid src prop hinv hnc
        cases hq2 : HardwareRegistrationCache.cacheProperty s.hash cid src prop.path prop with
        | err e h2 =>
          rw [hq2] at hpres
          simp only [CResult.hashOf] at hpres
          simpa [runHandler, HandlerM.bind_apply, tryCatch, attempt, liftCache, hq1,
            hq2, hconf', HandlerM.pure_apply] using hpres
        | ok a h2 =>
          rw [hq2] at hpres
          simp only [CResult.hashOf] at hpres
          cases src with
          | system =>
            by_cases hcond : ∃ a, ((hashGet h2 cid).bind Manifest.system).bind
                SourceRec.info = some a ∧ a.num_props = props.length + 1
            · simp [runHandler, HandlerM.bind_apply, tryCatch, attempt, liftCache,
                hq1, hq2, hconf', HandlerM.pure_apply, hcond,
                HardwareRegistrationCache.getSystemInfo,
                MqttApiV2.clearRegistrationTimeout]
              exact hashPropsInv_completeSuccessfulRegistration cid .system _ hpres
            · simpa [runHandler, HandlerM.bind_apply, tryCatch, attempt, liftCache,
                hq1, hq2, hconf', HandlerM.pure_apply, hcond,
                HardwareRegistrationCache.getSystemInfo] using hpres
          | app =>
            have hg := getApplicationInfo_hashOf h2 cid
            cases hq3 : HardwareRegistrationCache.getApplicationInfo h2 cid with
            | err e h3 =>
              rw [hq3] at hg
              simp only [CResult.hashOf] at hg
              subst hg
              simpa [runHandler, HandlerM.bind_apply, tryCatch, attempt, liftCache,
                hq1, hq2, hq3, hconf', HandlerM.pure_apply, throwJs] using hpres
            | ok oinfo h3 =>
              rw [hq3] at hg
              simp only [CResult.hashOf] at hg
              subst hg
              by_cases hcond : ∃ a, oinfo = some a ∧ a.num_props = props.length + 1
              · simp [runHandler, HandlerM.bind_apply, tryCatch, attempt, liftCache,
                  hq1, hq2, hq3, hconf', HandlerM.pure_apply, hcond,
                  MqttApiV2.clearRegistrationTimeout]
                exact hashPropsInv_completeSuccessfulRegistration cid .app _ hpres
              · simpa [runHandler, HandlerM.bind_apply, tryCatch, attempt, liftCache,
                  hq1, hq2, hq3, hconf', HandlerM.pure_apply, hcond] using hpres

/-- One `handlePropertyRegistration` run preserves the property-map
invariant at every componentId and source. -/
theorem hashPropsInv_handlePropertyRegistration
    (parse : List Nat → Except JsError V2PropertyRegistration)
    (cid : String) (src : V2Source) (payload : List Nat)
    (s : DispatchState) (hinv : hashPropsInv s.hash) :
    hashPropsInv (runHandler (MqttApiV2.handlePropertyRegistration parse cid src payload) s).hash := by
  unfold MqttApiV2.handlePropertyRegistration
  rw [runHandler_tryCatchLog]
  simp only [lockRegistrationCacheAndPerformAction]
  cases hq1 : HardwareRegistrationCache.isRegistered s.hash cid src with
  | err e h1 =>
    have h1e : h1 = s.hash := by
      have hh := isRegistered_hashOf s.hash cid src
      rw [hq1] at hh
      simpa [CResult.hashOf] using hh
    subst h1e
    simpa [runHandler, HandlerM.bind_apply, liftCache, hq1] using hinv
  | ok b h1 =>
    have h1e : h1 = s.hash := by
      have hh := isRegistered_hashOf s.hash cid src
      rw [hq1] at hh
      simpa [CResult.hashOf] using hh
    subst h1e
    cases b with
    | false =>
      simp only [runHandler, HandlerM.bind_apply, liftCache, hq1, HandlerM.pure_apply,
        Bool.false_eq_true, if_false]
      exact hashPropsInv_handlePropertyRegistrationTail cid src (parse payload) _ hinv
    | true =>
      have hc := hashPropsInv_clearProperties s.hash cid src hinv
      cases hq2 : HardwareRegistrationCache.clearProperties s.hash cid src with
      | ok a2 h2 =>
        rw [hq2] at hc
        simp only [CResult.hashOf] at hc
        have hs := hashPropsInv_setRegistered h2 cid src false hc
        cases hq3 : HardwareRegistrationCache.setRegistered h2 cid src false with
        | ok a3 h3 =>
          rw [hq3] at hs
          simp only [CResult.hashOf] at hs
          simp only [runHandler, HandlerM.bind_apply, liftCache, hq1, hq2, hq3,
            HandlerM.pure_apply, if_true, promiseAll2, tryCatch, emit, throwJs]
          exact hashPropsInv_handlePropertyRegistrationTail cid src (parse payload) _ hs
        | err e3 h3 =>
          rw [hq3] at hs
          simp only [CResult.hashOf] at hs
          simpa [runHandler, HandlerM.bind_apply, liftCache, hq1, hq2, hq3,
            HandlerM.pure_apply, promiseAll2, tryCatch, emit, throwJs] using hs
      | err e2 h2 =>
        rw [hq2] at hc
        simp only [CResult.hashOf] at hc
        have hs := hashPropsInv_setRegistered h2 cid src false hc
        cases hq3 : HardwareRegistrationCache.setRegistered h2 cid src false with
        | ok a3 h3 =>
          rw [hq3] at hs
          simp only [CResult.hashOf] at hs
          simpa [runHandler, HandlerM.bind_apply, liftCache, hq1, hq2, hq3,
            HandlerM.pure_apply, promiseAll2, tryCatch, emit, throwJs] using hs
        | err e3 h3 =>
          rw [hq3] at hs
          simp only [CResult.hashOf] at hs
          simpa [runHandler, HandlerM.bind_apply, liftCache, hq1, hq2, hq3,
            HandlerM.pure_apply, promiseAll2, tryCatch, emit, throwJs] using hs

/-- The record of the C1 witness. -/
def c1Prop : V2PropertyRegistration :=
  { path := "p1", index := 0, type := .gmbnd_primitive, format := "i", length := 1,
    settable := true, gettable := true }

/-- C1: starting from any state whose property maps satisfy the cache
invariant (e.g. the empty cache), after any sequence of
property-registration messages for a `(componentId, source)` the cached
records of that source have pairwise-distinct `path` values and
pairwise-distinct `index` values; and an incoming record that conflicts
with a cached one — equal `index` with different `path`, or equal `path`
with different `index` — is skipped: in the ordinary flow (source not
flagged registered) the handler leaves the entire state unchanged, so
nothing is cached and no cached state for that source is modified. -/
theorem handlePropertyRegistration_uniqueness
    (parse : List Nat → Except JsError V2PropertyRegistration)
    (componentId : String) (source : V2Source)
    (payloads : List (List Nat)) (s : DispatchState)
    (hinv : hashPropsInv s.hash) :
    (∀ m r, hashGet (payloads.foldl (fun st p =>
        runHandler (MqttApiV2.handlePropertyRegistration parse componentId source p) st)
        s).hash componentId = some m →
      m.getSrc source = some r →
      ((r.properties.map Prod.snd).map V2PropertyRegistration.path).Nodup ∧
      ((r.properties.map Prod.snd).map V2PropertyRegistration.index).Nodup) ∧
    (∀ (payload : List Nat) (m : Manifest) (r : SourceRec) (prop : V2PropertyRegistration),
      hashGet s.hash componentId = some m →
      m.getSrc source = some r →
      r.isRegistered ≠ some true →
      parse payload = .ok prop →
      MqttApiV2.conflictsWith (r.properties.map Prod.snd) prop = true →
      runHandler (MqttApiV2.handlePropertyRegistration parse componentId source payload) s
        = s) := by
  constructor
  · have hfold : ∀ (ps : List (List Nat)) (s0 : DispatchState), hashPropsInv s0.hash →
        hashPropsInv (ps.foldl (fun st p =>
          runHandler (MqttApiV2.handlePropertyRegistration parse componentId source p) st)
          s0).hash := by
      intro ps
      induction ps with
      | nil => intro s0 h0; exact h0
      | cons p ps ih =>
        intro s0 h0
        rw [List.foldl_cons]
        exact ih _ (hashPropsInv_handlePropertyRegistration parse componentId source p s0 h0)
    intro m r hm hr
    obtain ⟨hkeys, hpath, hidx⟩ := hfold payloads s hinv componentId m hm source r hr
    constructor
    · rw [List.map_map]
      have hpp : r.properties.map (V2PropertyRegistration.path ∘ Prod.snd)
          = r.properties.map Prod.fst :=
        List.map_congr_left (fun p hp => hpath p hp)
      rw [hpp]
      exact hkeys
    · rw [List.map_map]
      exact hidx
  · intro payload m r prop hm hr hreg hparse hconf
    have hisreg : HardwareRegistrationCache.isRegistered s.hash componentId source
        = .ok false s.hash := by
      unfold HardwareRegistrationCache.isRegistered
      simp only [hm, hr]
      simp [hreg]
    have hgap : HardwareRegistrationCache.getAllProperties s.hash componentId source
        = .ok (r.properties.map Prod.snd) s.hash := by
      unfold HardwareRegistrationCache.getAllProperties
      simp only [hm, hr]
    unfold MqttApiV2.handlePropertyRegistration
    rw [runHandler_tryCatchLog]
    simp [runHandler, lockRegistrationCacheAndPerformAction, HandlerM.bind_apply,
      HandlerM.pure_apply, liftCache, tryCatch, hisreg, hgap, hparse, hconf,
      MqttApiV2.handlePropertyRegistrationTail]

theorem handlePropertyRegistration_uniqueness_witness :
    (∀ m r, hashGet (([[0], [1]] : List (List Nat)).foldl (fun st p =>
        runHandler (MqttApiV2.handlePropertyRegistration
          (fun _ => .ok c1Prop) "c1" .app p) st) {}).hash "c1" = some m →
      m.getSrc .app = some r →
      ((r.properties.map Prod.snd).map V2PropertyRegistration.path).Nodup ∧
      ((r.properties.map Prod.snd).map V2PropertyRegistration.index).Nodup) ∧
    (∀ (payload : List Nat) (m : Manifest) (r : SourceRec) (prop : V2PropertyRegistration),
      hashGet ({} : DispatchState).hash "c1" = some m →
      m.getSrc .app = some r →
      r.isRegistered ≠ some true →
      (fun (_ : List Nat) => (.ok c1Prop : Except JsError V2PropertyRegistration)) payload
        = .ok prop →
      MqttApiV2.conflictsWith (r.properties.map Prod.snd) prop = true →
      runHandler (MqttApiV2.handlePropertyRegistration
        (fun _ => .ok c1Prop) "c1" .app payload) {} = {}) :=
  handlePropertyRegistration_uniqueness (fun _ => .ok c1Prop) "c1" .app [[0], [1]] {}
    (by intro cid m hm; simp [hashGet, alistLookup] at hm)

end Gumband
